import Mathlib

/-!
Shallow embedding of the battleship game engine from `src/main.rs`
(`BattleshipGame`: random fleet placement, shot resolution, stats reporting).

Machine integers (`usize`) are modelled as `Nat`; the only arithmetic is
increments and grid indexing, far below any overflow boundary, so no modular
reduction is needed.  Fallible grid/vector indexing (which panics in Rust)
is modelled with `Option`; a `none` result of `shoot` marks a run that would
have panicked.  The random number generator is modelled by an explicit list
of candidate placement choices `(dir, row, col)`; the unbounded rejection
loop returns `none` when the list of choices is exhausted.
-/

/-- `enum Cell { Empty, Ship(usize) }` — per-position board content. -/
inductive Cell where
  | Empty : Cell
  | Ship : Nat → Cell
deriving DecidableEq, Repr

/-- `enum Shot { Untargeted, Miss, Hit }` — per-position shot record. -/
inductive Shot where
  | Untargeted : Shot
  | Miss : Shot
  | Hit : Shot
deriving DecidableEq, Repr

/-- `struct Ship` — a placed ship: name, length, occupied positions, sunk flag. -/
structure Ship where
  name : String
  length : Nat
  positions : List (Nat × Nat)
  sunk : Bool
deriving DecidableEq, Repr

/-- `struct GameStats` — the record returned by `game_stats`. -/
structure GameStats where
  turns : Nat
  hits : Nat
  misses : Nat
  ships_left : Nat
  total_ships : Nat
deriving DecidableEq, Repr

/-- `struct BattleshipGame` — the whole game state. -/
structure BattleshipGame where
  board : List (List Cell)
  shots : List (List Shot)
  ships : List Ship
  game_over : Bool
  message : String
  play_again : Bool
  rows : Nat
  cols : Nat
  turns : Nat
deriving DecidableEq, Repr

/-- `const SHIPS: [(&str, usize); 3]` — the fixed fleet manifest. -/
def SHIPS : List (String × Nat) :=
  [("Destroyer", 2), ("Cruiser", 3), ("Battleship", 4)]

/-- Indexing a vector of vectors: `xss[r][c]`, `none` when out of bounds
(a Rust panic). -/
def gridGet (xss : List (List α)) (r c : Nat) : Option α :=
  xss[r]?.bind (fun row => row[c]?)

/-- Assignment `xss[r][c] = v` (no-op out of bounds; in the embedding it is
only ever applied at indices whose read already succeeded). -/
def gridSet (xss : List (List α)) (r c : Nat) (v : α) : List (List α) :=
  xss.set r ((xss.getD r []).set c v)

/-- `ship.positions.iter().all(|&(r, c)| self.shots[r][c] == Shot::Hit)` —
short-circuiting, `none` if a lookup that is reached goes out of bounds. -/
def allHit (shots : List (List Shot)) : List (Nat × Nat) → Option Bool
  | [] => some true
  | p :: ps =>
    match gridGet shots p.1 p.2 with
    | none => none
    | some s => if s = Shot.Hit then allHit shots ps else some false

/-- Lines 136–141 of `shoot`: recount unsunk ships and, when none are left,
set `game_over`, the victory message and `play_again`. -/
def finishShot (g : BattleshipGame) : BattleshipGame :=
  let ships_left := (g.ships.filter (fun s => !s.sunk)).length
  if ships_left = 0 then
    { g with game_over := true,
             message := "Congratulations! You sunk all the ships!",
             play_again := true }
  else g

/-- `fn shoot(&mut self, row: usize, col: usize)`.  Returns `none` exactly
when the Rust code would panic on an out-of-bounds index. -/
def shoot (g : BattleshipGame) (row col : Nat) : Option BattleshipGame :=
  let g1 : BattleshipGame := { g with turns := g.turns + 1 }
  if g1.game_over then some g1
  else
    match gridGet g1.shots row col with
    | none => none
    | some s =>
      if s ≠ Shot.Untargeted then some g1
      else
        match gridGet g1.board row col with
        | none => none
        | some Cell.Empty =>
          some (finishShot
            { g1 with
              shots := gridSet g1.shots row col Shot.Miss,
              message := "Miss at (" ++ toString (row + 1) ++ ", " ++
                toString (col + 1) ++ ")!" })
        | some (Cell.Ship idx) =>
          let g2 : BattleshipGame :=
            { g1 with
              shots := gridSet g1.shots row col Shot.Hit,
              message := "Hit at (" ++ toString (row + 1) ++ ", " ++
                toString (col + 1) ++ ")!" }
          match g2.ships[idx]? with
          | none => none
          | some ship =>
            match allHit g2.shots ship.positions with
            | none => none
            | some true =>
              some (finishShot
                { g2 with
                  ships := g2.ships.set idx { ship with sunk := true },
                  message := "You sunk the " ++ ship.name ++ "!" })
            | some false => some (finishShot g2)

/-- `fn game_stats(&self) -> GameStats` — the two mutable counters of the
Rust loop become a fold over the shot grid. -/
def game_stats (g : BattleshipGame) : GameStats :=
  let hm : Nat × Nat := g.shots.foldl (fun acc row =>
    row.foldl (fun acc2 cell =>
      match cell with
      | Shot.Hit => (acc2.1 + 1, acc2.2)
      | Shot.Miss => (acc2.1, acc2.2 + 1)
      | Shot.Untargeted => acc2) acc) (0, 0)
  { turns := g.turns,
    hits := hm.1,
    misses := hm.2,
    ships_left := (g.ships.filter (fun s => !s.sunk)).length,
    total_ships := g.ships.length }

/-- The coordinate sequence of a candidate placement (lines 87–92):
`(row, col+i)` when horizontal, `(row+i, col)` when vertical. -/
def shipCells (dir : Bool) (row col len : Nat) : List (Nat × Nat) :=
  (List.range len).map (fun i => if dir then (row, col + i) else (row + i, col))

/-- The acceptance test of the placement loop (lines 93–98): every cell of
the candidate is in bounds and currently `Empty`. -/
def canPlace (board : List (List Cell)) (rows cols : Nat)
    (cells : List (Nat × Nat)) : Bool :=
  cells.all (fun p =>
    decide (p.1 < rows) && decide (p.2 < cols) &&
      decide (gridGet board p.1 p.2 = some Cell.Empty))

/-- Lines 101–103: mark every accepted cell as owned by ship `idx`. -/
def markCells (board : List (List Cell)) (cells : List (Nat × Nat))
    (idx : Nat) : List (List Cell) :=
  cells.foldl (fun b p => gridSet b p.1 p.2 (Cell.Ship idx)) board

/-- The `'place: loop` for one ship: try random choices `(dir, row, col)` in
order until one is accepted; `none` when the supply of choices runs out. -/
def placeShipLoop (rows cols idx len : Nat) :
    List (Bool × Nat × Nat) → List (List Cell) →
    Option (List (List Cell) × List (Nat × Nat) × List (Bool × Nat × Nat))
  | [], _ => none
  | (dir, row, col) :: rest, board =>
    let cells := shipCells dir row col len
    if canPlace board rows cols cells then
      some (markCells board cells idx, cells, rest)
    else
      placeShipLoop rows cols idx len rest board

/-- The `for (ship_idx, (name, length)) in SHIPS.iter().enumerate()` loop:
place each manifest entry in order, threading the board and the remaining
random choices. -/
def placeFleet (rows cols : Nat) :
    List (String × Nat) → Nat → List (Bool × Nat × Nat) →
    List (List Cell) → List Ship → Option (List (List Cell) × List Ship)
  | [], _, _, board, ships => some (board, ships)
  | (name, len) :: restShips, idx, choices, board, ships =>
    match placeShipLoop rows cols idx len choices board with
    | none => none
    | some (board2, cells, choices2) =>
      placeFleet rows cols restShips (idx + 1) choices2 board2
        (ships ++ [{ name := name, length := len, positions := cells,
                     sunk := false }])

/-- `fn start_game(&mut self, rows, cols)` — every field of the state is
overwritten, so the previous state is not a parameter.  The random draws of
the placement loop are supplied as the `choices` list. -/
def start_game (choices : List (Bool × Nat × Nat)) (rows cols : Nat) :
    Option BattleshipGame :=
  match placeFleet rows cols SHIPS 0 choices
      (List.replicate rows (List.replicate cols Cell.Empty)) [] with
  | none => none
  | some (board, ships) =>
    some { board := board,
           shots := List.replicate rows (List.replicate cols Shot.Untargeted),
           ships := ships,
           game_over := false,
           message := "Game started!",
           play_again := false,
           rows := rows,
           cols := cols,
           turns := 0 }

/-- `fn new(rows, cols)` builds a dummy state and immediately calls
`start_game`, which overwrites every field, so `new` coincides with
`start_game`. -/
def new_game (choices : List (Bool × Nat × Nat)) (rows cols : Nat) :
    Option BattleshipGame :=
  start_game choices rows cols

/-! ### Spec-side declarative counts -/

/-- Number of grid entries satisfying `p`. -/
def gridCountP (p : α → Bool) (xss : List (List α)) : Nat :=
  (xss.map (fun row => row.countP p)).sum

/-- Number of `Hit` entries in a shot grid. -/
def hitCount (shots : List (List Shot)) : Nat :=
  gridCountP (fun s => decide (s = Shot.Hit)) shots

/-- Number of `Miss` entries in a shot grid. -/
def missCount (shots : List (List Shot)) : Nat :=
  gridCountP (fun s => decide (s = Shot.Miss)) shots

/-- Number of ship-occupied cells of a board. -/
def occupiedCount (board : List (List Cell)) : Nat :=
  gridCountP (fun c => decide (c ≠ Cell.Empty)) board

/-- Number of ships whose `sunk` flag is still false. -/
def shipsLeft (ships : List Ship) : Nat :=
  (ships.filter (fun s => !s.sunk)).length

/-- Number of positions of one ship whose shot record is `Hit`. -/
def shipHits (shots : List (List Shot)) (s : Ship) : Nat :=
  s.positions.countP (fun p => decide (gridGet shots p.1 p.2 = some Shot.Hit))

/-- Total ship-position hits across the fleet. -/
def fleetHits (g : BattleshipGame) : Nat :=
  (g.ships.map (shipHits g.shots)).sum

/-! ### Reachability -/

/-- States produced by `new_game` followed by any sequence of in-bounds
`shoot` calls (a `none` result of `shoot` would be a panic and ends no run
in a state). -/
inductive Reachable : BattleshipGame → Prop where
  | start (choices : List (Bool × Nat × Nat)) (rows cols : Nat)
      (g : BattleshipGame) :
      new_game choices rows cols = some g → Reachable g
  | step (g g' : BattleshipGame) (row col : Nat) :
      Reachable g → row < g.rows → col < g.cols →
      shoot g row col = some g' → Reachable g'

/-- Multi-step shooting between two states of the same game instance. -/
inductive Steps : BattleshipGame → BattleshipGame → Prop where
  | refl (g : BattleshipGame) : Steps g g
  | tail (g g' g'' : BattleshipGame) (row col : Nat) :
      Steps g g' → shoot g' row col = some g'' → Steps g g''

/-! ### The structural invariant -/

/-- The structural invariant of a game state: grid shapes, positions and
board agree, shot records are consistent with the board, `sunk` flags are
consistent with the shot records.  It does not mention `game_over`,
`message`, `play_again` or `turns`. -/
structure StateInv (g : BattleshipGame) : Prop where
  board_len : g.board.length = g.rows
  board_cols : ∀ row ∈ g.board, row.length = g.cols
  shots_len : g.shots.length = g.rows
  shots_cols : ∀ row ∈ g.shots, row.length = g.cols
  manifest : g.ships.map (fun s => (s.name, s.length)) = SHIPS
  pos_len : ∀ s ∈ g.ships, s.positions.length = s.length
  pos_nodup : ∀ s ∈ g.ships, s.positions.Nodup
  pos_line : ∀ s ∈ g.ships, ∃ dir r c, s.positions = shipCells dir r c s.length
  pos_inb : ∀ s ∈ g.ships, ∀ p ∈ s.positions, p.1 < g.rows ∧ p.2 < g.cols
  pos_cell : ∀ idx s, g.ships[idx]? = some s → ∀ p ∈ s.positions,
      gridGet g.board p.1 p.2 = some (Cell.Ship idx)
  cell_pos : ∀ r c idx, gridGet g.board r c = some (Cell.Ship idx) →
      ∃ s, g.ships[idx]? = some s ∧ (r, c) ∈ s.positions
  hit_occ : ∀ r c, gridGet g.shots r c = some Shot.Hit →
      ∃ idx, gridGet g.board r c = some (Cell.Ship idx)
  sunk_hit : ∀ s ∈ g.ships, s.sunk = true → ∀ p ∈ s.positions,
      gridGet g.shots p.1 p.2 = some Shot.Hit
  hits_eq : hitCount g.shots = fleetHits g
  occ_eq : occupiedCount g.board =
      (g.ships.map (fun s => s.positions.length)).sum

/-- The full invariant: the structural one plus the win-condition coupling
of `game_over` with the `sunk` flags. -/
def GameWF (g : BattleshipGame) : Prop :=
  StateInv g ∧ g.game_over = g.ships.all (fun s => s.sunk)

/-- `StateInv` only looks at five fields, so it transports along states that
agree on them. -/
theorem StateInv.of_eq {g g' : BattleshipGame} (h : StateInv g)
    (hb : g'.board = g.board) (hs : g'.shots = g.shots)
    (hsh : g'.ships = g.ships) (hr : g'.rows = g.rows)
    (hc : g'.cols = g.cols) : StateInv g' := by
  constructor
  case board_len => rw [hb, hr]; exact h.board_len
  case board_cols => rw [hb, hc]; exact h.board_cols
  case shots_len => rw [hs, hr]; exact h.shots_len
  case shots_cols => rw [hs, hc]; exact h.shots_cols
  case manifest => rw [hsh]; exact h.manifest
  case pos_len => rw [hsh]; exact h.pos_len
  case pos_nodup => rw [hsh]; exact h.pos_nodup
  case pos_line => rw [hsh]; exact h.pos_line
  case pos_inb => rw [hsh, hr, hc]; exact h.pos_inb
  case pos_cell => rw [hsh, hb]; exact h.pos_cell
  case cell_pos => rw [hsh, hb]; exact h.cell_pos
  case hit_occ => rw [hs, hb]; exact h.hit_occ
  case sunk_hit => rw [hsh, hs]; exact h.sunk_hit
  case hits_eq => simpa [fleetHits, hs, hsh] using h.hits_eq
  case occ_eq => rw [hb, hsh]; exact h.occ_eq

/-! ### Grid lemmas -/

theorem gridGet_some {xss : List (List α)} {r c : Nat} {a : α}
    (h : gridGet xss r c = some a) :
    ∃ row, xss[r]? = some row ∧ row[c]? = some a := by
  unfold gridGet at h
  cases hr : xss[r]? with
  | none => rw [hr] at h; simp at h
  | some row => rw [hr] at h; exact ⟨row, rfl, h⟩

theorem gridGet_of_lt {xss : List (List α)} {r c rows cols : Nat}
    (hlen : xss.length = rows) (hcols : ∀ row ∈ xss, row.length = cols)
    (hr : r < rows) (hc : c < cols) :
    ∃ a, gridGet xss r c = some a := by
  have hr' : r < xss.length := hlen ▸ hr
  have hrow : xss[r]? = some xss[r] := List.getElem?_eq_getElem hr'
  have hmem : xss[r] ∈ xss := List.getElem_mem hr'
  have hc' : c < xss[r].length := (hcols _ hmem) ▸ hc
  exact ⟨xss[r][c], by
    unfold gridGet
    rw [hrow]
    exact List.getElem?_eq_getElem hc'⟩

theorem gridSet_of_length_le {xss : List (List α)} {r : Nat} (c : Nat) (v : α)
    (h : xss.length ≤ r) : gridSet xss r c v = xss := by
  unfold gridSet
  exact List.set_eq_of_length_le h

theorem gridSet_length (xss : List (List α)) (r c : Nat) (v : α) :
    (gridSet xss r c v).length = xss.length := by
  unfold gridSet; exact List.length_set ..

theorem gridSet_cols {xss : List (List α)} {cols : Nat} (r c : Nat) (v : α)
    (hcols : ∀ row ∈ xss, row.length = cols) :
    ∀ row ∈ gridSet xss r c v, row.length = cols := by
  by_cases hr : r < xss.length
  · intro row hmem
    rcases List.mem_or_eq_of_mem_set hmem with h | h
    · exact hcols _ h
    · subst h
      rw [List.length_set, List.getD_eq_getElem?_getD,
        List.getElem?_eq_getElem hr]
      exact hcols _ (List.getElem_mem hr)
  · rw [gridSet_of_length_le c v (le_of_not_lt hr)]
    exact hcols

theorem gridGet_gridSet_self {xss : List (List α)} {r c : Nat} {a : α}
    (v : α) (h : gridGet xss r c = some a) :
    gridGet (gridSet xss r c v) r c = some v := by
  obtain ⟨row, hrow, hc⟩ := gridGet_some h
  have hr : r < xss.length := by
    by_contra hr
    rw [List.getElem?_eq_none (le_of_not_lt hr)] at hrow
    exact Option.noConfusion hrow
  have hc' : c < row.length := by
    by_contra hc'
    rw [List.getElem?_eq_none (le_of_not_lt hc')] at hc
    exact Option.noConfusion hc
  unfold gridSet gridGet
  rw [List.getD_eq_getElem?_getD, hrow]
  simp only [Option.getD_some]
  rw [List.getElem?_set_eq_of_lt _ hr, Option.some_bind]
  exact List.getElem?_set_eq_of_lt v hc'

theorem gridGet_gridSet_ne {xss : List (List α)} (r c : Nat) (v : α)
    {r' c' : Nat} (h : ¬(r' = r ∧ c' = c)) :
    gridGet (gridSet xss r c v) r' c' = gridGet xss r' c' := by
  by_cases hrlt : r < xss.length
  · by_cases hr : r' = r
    · subst hr
      have hc : c' ≠ c := fun hc => h ⟨rfl, hc⟩
      unfold gridSet gridGet
      rw [List.getElem?_set_eq_of_lt _ hrlt, Option.some_bind,
        List.getD_eq_getElem?_getD, List.getElem?_eq_getElem hrlt]
      simp only [Option.getD_some]
      rw [List.getElem?_set_ne (fun hcc => hc hcc.symm), Option.some_bind]
    · unfold gridSet gridGet
      rw [List.getElem?_set_ne (fun hrr => hr hrr.symm)]
  · rw [gridSet_of_length_le c v (le_of_not_lt hrlt)]

theorem countP_set {l : List α} {i : Nat} {a : α} (v : α) (p : α → Bool)
    (h : l[i]? = some a) :
    (l.set i v).countP p + (if p a then 1 else 0) =
      l.countP p + (if p v then 1 else 0) := by
  induction l generalizing i with
  | nil => simp at h
  | cons x t ih =>
    cases i with
    | zero =>
      simp only [List.getElem?_cons_zero, Option.some.injEq] at h
      subst h
      simp only [List.set_cons_zero, List.countP_cons]
      omega
    | succ n =>
      simp only [List.getElem?_cons_succ] at h
      simp only [List.set_cons_succ, List.countP_cons]
      have := ih h
      omega

theorem sum_set_nat {l : List Nat} {i : Nat} {a : Nat} (x : Nat)
    (h : l[i]? = some a) : (l.set i x).sum + a = l.sum + x := by
  induction l generalizing i with
  | nil => simp at h
  | cons y t ih =>
    cases i with
    | zero =>
      simp only [List.getElem?_cons_zero, Option.some.injEq] at h
      subst h
      simp only [List.set_cons_zero, List.sum_cons]
      omega
    | succ n =>
      simp only [List.getElem?_cons_succ] at h
      simp only [List.set_cons_succ, List.sum_cons]
      have := ih h
      omega

theorem gridCountP_gridSet {xss : List (List α)} {r c : Nat} {a : α}
    (v : α) (p : α → Bool) (h : gridGet xss r c = some a) :
    gridCountP p (gridSet xss r c v) + (if p a then 1 else 0) =
      gridCountP p xss + (if p v then 1 else 0) := by
  obtain ⟨row, hrow, hc⟩ := gridGet_some h
  unfold gridSet gridCountP
  rw [List.getD_eq_getElem?_getD, hrow]
  simp only [Option.getD_some]
  rw [List.map_set]
  have hsum := sum_set_nat (l := xss.map (fun row => row.countP p))
    (i := r) (a := row.countP p) ((row.set c v).countP p)
    (by rw [List.getElem?_map, hrow]; rfl)
  have hcnt := countP_set v p hc
  omega

/-- Setting an entry to the value it already has is the identity. -/
theorem set_getElem?_self {l : List α} {i : Nat} {a : α}
    (h : l[i]? = some a) : l.set i a = l := by
  induction l generalizing i with
  | nil => simp at h
  | cons x t ih =>
    cases i with
    | zero =>
      simp only [List.getElem?_cons_zero, Option.some.injEq] at h
      subst h
      simp
    | succ n =>
      simp only [List.getElem?_cons_succ] at h
      simp [ih h]

/-- A `countP` under a pointwise change of predicate at a single element
that flips from false to true: the count grows by the multiplicity of that
element. -/
theorem countP_update [DecidableEq α] {l : List α} {a : α} {p q : α → Bool}
    (hcongr : ∀ x ∈ l, x ≠ a → q x = p x) (hpa : p a = false)
    (hqa : q a = true) : l.countP q = l.countP p + l.count a := by
  induction l with
  | nil => simp
  | cons x t ih =>
    have ht : ∀ y ∈ t, y ≠ a → q y = p y :=
      fun y hy => hcongr y (List.mem_cons_of_mem x hy)
    by_cases hx : x = a
    · subst hx
      simp only [List.countP_cons, List.count_cons_self]
      rw [ih ht]
      simp [hpa, hqa]
      omega
    · have hq := hcongr x (List.mem_cons_self x t) hx
      have hax : a ≠ x := fun hh => hx hh.symm
      simp only [List.countP_cons, List.count_cons]
      rw [ih ht]
      simp [hq, hx, hax]
      omega

/-- A `countP` under a pointwise-equal predicate change. -/
theorem countP_congr_eq {l : List α} {p q : α → Bool}
    (h : ∀ x ∈ l, q x = p x) : l.countP q = l.countP p := by
  induction l with
  | nil => simp
  | cons x t ih =>
    rw [List.countP_cons, List.countP_cons,
      h x (List.mem_cons_self x t),
      ih (fun y hy => h y (List.mem_cons_of_mem x hy))]

theorem sum_map_set {l : List α} {i : Nat} {a : α} (x : α) (f : α → Nat)
    (h : l[i]? = some a) :
    ((l.set i x).map f).sum + f a = (l.map f).sum + f x := by
  rw [List.map_set]
  exact sum_set_nat (f x)
    (by rw [List.getElem?_map, h]; rfl)

/-! ### `allHit` and `finishShot` characterizations -/

theorem allHit_eq_true_iff (shots : List (List Shot))
    (ps : List (Nat × Nat)) :
    allHit shots ps = some true ↔
      ∀ p ∈ ps, gridGet shots p.1 p.2 = some Shot.Hit := by
  induction ps with
  | nil => simp [allHit]
  | cons p t ih =>
    unfold allHit
    cases hp : gridGet shots p.1 p.2 with
    | none =>
      constructor
      · intro habs; exact absurd habs (by simp)
      · intro hall
        have := hall p (List.mem_cons_self p t)
        rw [hp] at this
        exact absurd this (by simp)
    | some s =>
      by_cases hs : s = Shot.Hit
      · subst hs
        dsimp only
        rw [if_pos rfl, ih]
        constructor
        · intro hall q hq
          rcases List.mem_cons.mp hq with hq | hq
          · subst hq; exact hp
          · exact hall q hq
        · intro hall q hq
          exact hall q (List.mem_cons_of_mem p hq)
      · dsimp only
        rw [if_neg hs]
        constructor
        · intro hfalse; exact absurd hfalse (by simp)
        · intro hall
          have := hall p (List.mem_cons_self p t)
          rw [hp] at this
          exact absurd (Option.some.injEq .. ▸ this) hs

theorem allHit_isSome (shots : List (List Shot)) (ps : List (Nat × Nat))
    (h : ∀ p ∈ ps, ∃ s, gridGet shots p.1 p.2 = some s) :
    ∃ b, allHit shots ps = some b := by
  induction ps with
  | nil => exact ⟨true, rfl⟩
  | cons p t ih =>
    obtain ⟨s, hs⟩ := h p (List.mem_cons_self p t)
    unfold allHit
    rw [hs]
    by_cases hhit : s = Shot.Hit
    · subst hhit
      simpa using ih (fun q hq => h q (List.mem_cons_of_mem p hq))
    · exact ⟨false, by simp [hhit]⟩

/-- What `finishShot` does, field by field. -/
theorem finishShot_spec (g : BattleshipGame) :
    (finishShot g).board = g.board ∧
    (finishShot g).shots = g.shots ∧
    (finishShot g).ships = g.ships ∧
    (finishShot g).rows = g.rows ∧
    (finishShot g).cols = g.cols ∧
    (finishShot g).turns = g.turns ∧
    (finishShot g).game_over =
      (g.game_over || g.ships.all (fun s => s.sunk)) ∧
    (finishShot g).message =
      (if shipsLeft g.ships = 0 then
        "Congratulations! You sunk all the ships!" else g.message) ∧
    (finishShot g).play_again =
      (if shipsLeft g.ships = 0 then true else g.play_again) := by
  unfold finishShot shipsLeft
  by_cases h : (g.ships.filter (fun s => !s.sunk)).length = 0
  · have hall : g.ships.all (fun s => s.sunk) = true := by
      rw [List.length_eq_zero] at h
      rw [List.all_eq_true]
      intro s hs
      by_contra hsunk
      have : s ∈ g.ships.filter (fun s => !s.sunk) :=
        List.mem_filter.mpr ⟨hs, by simp [Bool.not_eq_true] at hsunk ⊢; exact hsunk⟩
      rw [h] at this
      exact absurd this (List.not_mem_nil s)
    simp [h, hall]
  · have hall : g.ships.all (fun s => s.sunk) = false := by
      by_contra hcon
      rw [Bool.not_eq_false, List.all_eq_true] at hcon
      apply h
      rw [List.length_eq_zero, List.filter_eq_nil_iff]
      intro s hs
      simp [hcon s hs]
    simp [h, hall]

/-! ### Equation lemmas for `shoot`, one per control path -/

theorem shoot_game_over {g : BattleshipGame} (row col : Nat)
    (h : g.game_over = true) :
    shoot g row col = some { g with turns := g.turns + 1 } := by
  unfold shoot
  simp [h]

theorem shoot_already_targeted {g : BattleshipGame} {row col : Nat} {s : Shot}
    (hgo : g.game_over = false) (hs : gridGet g.shots row col = some s)
    (hne : s ≠ Shot.Untargeted) :
    shoot g row col = some { g with turns := g.turns + 1 } := by
  unfold shoot
  simp [hgo, hs, hne]

theorem shoot_miss_eq {g : BattleshipGame} {row col : Nat}
    (hgo : g.game_over = false)
    (hs : gridGet g.shots row col = some Shot.Untargeted)
    (hb : gridGet g.board row col = some Cell.Empty) :
    shoot g row col = some (finishShot
      { g with turns := g.turns + 1,
               shots := gridSet g.shots row col Shot.Miss,
               message := "Miss at (" ++ toString (row + 1) ++ ", " ++
                 toString (col + 1) ++ ")!" }) := by
  unfold shoot
  simp [hgo, hs, hb]

theorem shoot_hit_sunk_eq {g : BattleshipGame} {row col idx : Nat}
    {ship : Ship} (hgo : g.game_over = false)
    (hs : gridGet g.shots row col = some Shot.Untargeted)
    (hb : gridGet g.board row col = some (Cell.Ship idx))
    (hship : g.ships[idx]? = some ship)
    (hall : allHit (gridSet g.shots row col Shot.Hit) ship.positions =
      some true) :
    shoot g row col = some (finishShot
      { g with turns := g.turns + 1,
               shots := gridSet g.shots row col Shot.Hit,
               ships := g.ships.set idx { ship with sunk := true },
               message := "You sunk the " ++ ship.name ++ "!" }) := by
  unfold shoot
  simp [hgo, hs, hb, hship, hall]

theorem shoot_hit_nosunk_eq {g : BattleshipGame} {row col idx : Nat}
    {ship : Ship} (hgo : g.game_over = false)
    (hs : gridGet g.shots row col = some Shot.Untargeted)
    (hb : gridGet g.board row col = some (Cell.Ship idx))
    (hship : g.ships[idx]? = some ship)
    (hall : allHit (gridSet g.shots row col Shot.Hit) ship.positions =
      some false) :
    shoot g row col = some (finishShot
      { g with turns := g.turns + 1,
               shots := gridSet g.shots row col Shot.Hit,
               message := "Hit at (" ++ toString (row + 1) ++ ", " ++
                 toString (col + 1) ++ ")!" }) := by
  unfold shoot
  simp [hgo, hs, hb, hship, hall]

/-- Case analysis on a successful `shoot`: the five control paths that end
in a state. -/
theorem shoot_cases {g g' : BattleshipGame} {row col : Nat}
    (h : shoot g row col = some g') :
    (g.game_over = true ∧ g' = { g with turns := g.turns + 1 }) ∨
    (g.game_over = false ∧
      (∃ s, gridGet g.shots row col = some s ∧ s ≠ Shot.Untargeted) ∧
      g' = { g with turns := g.turns + 1 }) ∨
    (g.game_over = false ∧
      gridGet g.shots row col = some Shot.Untargeted ∧
      gridGet g.board row col = some Cell.Empty ∧
      g' = finishShot
        { g with turns := g.turns + 1,
                 shots := gridSet g.shots row col Shot.Miss,
                 message := "Miss at (" ++ toString (row + 1) ++ ", " ++
                   toString (col + 1) ++ ")!" }) ∨
    (g.game_over = false ∧
      gridGet g.shots row col = some Shot.Untargeted ∧
      ∃ idx ship, gridGet g.board row col = some (Cell.Ship idx) ∧
        g.ships[idx]? = some ship ∧
        ((allHit (gridSet g.shots row col Shot.Hit) ship.positions =
            some true ∧
          g' = finishShot
            { g with turns := g.turns + 1,
                     shots := gridSet g.shots row col Shot.Hit,
                     ships := g.ships.set idx { ship with sunk := true },
                     message := "You sunk the " ++ ship.name ++ "!" }) ∨
         (allHit (gridSet g.shots row col Shot.Hit) ship.positions =
            some false ∧
          g' = finishShot
            { g with turns := g.turns + 1,
                     shots := gridSet g.shots row col Shot.Hit,
                     message := "Hit at (" ++ toString (row + 1) ++ ", " ++
                       toString (col + 1) ++ ")!" }))) := by
  by_cases hgo : g.game_over = true
  · rw [shoot_game_over row col hgo] at h
    exact Or.inl ⟨hgo, (Option.some.inj h).symm⟩
  · have hgo' : g.game_over = false := by
      cases hx : g.game_over
      · rfl
      · exact absurd hx hgo
    rcases hs : gridGet g.shots row col with _ | s
    · have hnone : shoot g row col = none := by
        unfold shoot; simp [hgo', hs]
      rw [hnone] at h
      exact Option.noConfusion h
    · by_cases hu : s = Shot.Untargeted
      · subst hu
        rcases hb : gridGet g.board row col with _ | c
        · have hnone : shoot g row col = none := by
            unfold shoot; simp [hgo', hs, hb]
          rw [hnone] at h
          exact Option.noConfusion h
        · cases c with
          | Empty =>
            rw [shoot_miss_eq hgo' hs hb] at h
            exact Or.inr (Or.inr (Or.inl
              ⟨hgo', rfl, rfl, (Option.some.inj h).symm⟩))
          | Ship idx =>
            rcases hship : g.ships[idx]? with _ | ship
            · have hnone : shoot g row col = none := by
                unfold shoot; simp [hgo', hs, hb, hship]
              rw [hnone] at h
              exact Option.noConfusion h
            · rcases hall : allHit (gridSet g.shots row col Shot.Hit)
                ship.positions with _ | b
              · have hnone : shoot g row col = none := by
                  unfold shoot; simp [hgo', hs, hb, hship, hall]
                rw [hnone] at h
                exact Option.noConfusion h
              · cases b with
                | true =>
                  rw [shoot_hit_sunk_eq hgo' hs hb hship hall] at h
                  exact Or.inr (Or.inr (Or.inr ⟨hgo', rfl, idx, ship, rfl,
                    hship, Or.inl ⟨hall, (Option.some.inj h).symm⟩⟩))
                | false =>
                  rw [shoot_hit_nosunk_eq hgo' hs hb hship hall] at h
                  exact Or.inr (Or.inr (Or.inr ⟨hgo', rfl, idx, ship, rfl,
                    hship, Or.inr ⟨hall, (Option.some.inj h).symm⟩⟩))
      · rw [shoot_already_targeted hgo' hs hu] at h
        exact Or.inr (Or.inl ⟨hgo', ⟨s, rfl, hu⟩, (Option.some.inj h).symm⟩)

/-! ### Preservation of the structural invariant by `shoot` -/

theorem getElem?_lt {l : List α} {i : Nat} {a : α} (h : l[i]? = some a) :
    i < l.length :=
  (List.getElem?_eq_some.mp h).1

theorem ne_pair_of_ne {p : Nat × Nat} {row col : Nat} (h : p ≠ (row, col)) :
    ¬(p.1 = row ∧ p.2 = col) :=
  fun hc => h (Prod.ext hc.1 hc.2)

/-- Summing `f` over a list after bumping its value by one at exactly the
`i`-th entry. -/
theorem sum_map_succ_at {l : List α} {i : Nat} {a : α} (f f' : α → Nat)
    (hi : l[i]? = some a)
    (hoff : ∀ j b, l[j]? = some b → j ≠ i → f' b = f b)
    (hat : f' a = f a + 1) :
    (l.map f').sum = (l.map f).sum + 1 := by
  induction l generalizing i with
  | nil => simp at hi
  | cons x t ih =>
    cases i with
    | zero =>
      simp only [List.getElem?_cons_zero, Option.some.injEq] at hi
      subst hi
      have hrest : t.map f' = t.map f := by
        apply List.map_congr_left
        intro b hb
        obtain ⟨j, hj⟩ := List.mem_iff_getElem?.mp hb
        exact hoff (j + 1) b (by simpa using hj) (Nat.succ_ne_zero j)
      simp only [List.map_cons, List.sum_cons, hrest, hat]
      omega
    | succ n =>
      simp only [List.getElem?_cons_succ] at hi
      have hx : f' x = f x := hoff 0 x (by simp) (by omega)
      have ht := ih hi (fun j b hj hne =>
        hoff (j + 1) b (by simpa using hj) (by omega))
      simp only [List.map_cons, List.sum_cons, hx, ht]
      omega

/-- No ship position sits on an `Empty` board cell. -/
theorem not_mem_positions_of_empty {g : BattleshipGame} {row col : Nat}
    (hinv : StateInv g)
    (hb : gridGet g.board row col = some Cell.Empty) :
    ∀ s ∈ g.ships, (row, col) ∉ s.positions := by
  intro s hsm hmem
  obtain ⟨i, hi⟩ := List.mem_iff_getElem?.mp hsm
  have hcell := hinv.pos_cell i s hi (row, col) hmem
  dsimp only at hcell
  rw [hb] at hcell
  exact Cell.noConfusion (Option.some.inj hcell)

/-- The miss branch of `shoot` preserves the structural invariant. -/
theorem stateInv_miss {g : BattleshipGame} {row col : Nat}
    (hinv : StateInv g)
    (hs : gridGet g.shots row col = some Shot.Untargeted)
    (hb : gridGet g.board row col = some Cell.Empty)
    (t : Nat) (m : String) :
    StateInv { g with turns := t,
                      shots := gridSet g.shots row col Shot.Miss,
                      message := m } := by
  have hnotpos := not_mem_positions_of_empty hinv hb
  constructor
  case board_len => exact hinv.board_len
  case board_cols => exact hinv.board_cols
  case shots_len =>
    show (gridSet g.shots row col Shot.Miss).length = g.rows
    rw [gridSet_length]; exact hinv.shots_len
  case shots_cols =>
    exact gridSet_cols row col Shot.Miss hinv.shots_cols
  case manifest => exact hinv.manifest
  case pos_len => exact hinv.pos_len
  case pos_nodup => exact hinv.pos_nodup
  case pos_line => exact hinv.pos_line
  case pos_inb => exact hinv.pos_inb
  case pos_cell => exact hinv.pos_cell
  case cell_pos => exact hinv.cell_pos
  case hit_occ =>
    intro r c hhit
    dsimp only at hhit ⊢
    by_cases hp : r = row ∧ c = col
    · obtain ⟨rfl, rfl⟩ := hp
      rw [gridGet_gridSet_self Shot.Miss hs] at hhit
      exact absurd (Option.some.inj hhit) (by simp)
    · rw [gridGet_gridSet_ne row col Shot.Miss hp] at hhit
      exact hinv.hit_occ r c hhit
  case sunk_hit =>
    intro s hsm hsunk p hp
    dsimp only at hsm ⊢
    have hne : p ≠ (row, col) := fun he => hnotpos s hsm (he ▸ hp)
    rw [gridGet_gridSet_ne row col Shot.Miss (ne_pair_of_ne hne)]
    exact hinv.sunk_hit s hsm hsunk p hp
  case hits_eq =>
    show hitCount (gridSet g.shots row col Shot.Miss) =
      (g.ships.map (shipHits (gridSet g.shots row col Shot.Miss))).sum
    have hgrid : hitCount (gridSet g.shots row col Shot.Miss) =
        hitCount g.shots := by
      unfold hitCount
      have hc := gridCountP_gridSet Shot.Miss
        (fun s => decide (s = Shot.Hit)) hs
      simp only [decide_eq_true_eq] at hc
      rw [if_neg (by simp), if_neg (by simp)] at hc
      omega
    have hfleet : ∀ s ∈ g.ships,
        shipHits (gridSet g.shots row col Shot.Miss) s =
          shipHits g.shots s := by
      intro s hsm
      unfold shipHits
      apply countP_congr_eq
      intro p hp
      have hne : p ≠ (row, col) := fun he => hnotpos s hsm (he ▸ hp)
      rw [gridGet_gridSet_ne row col Shot.Miss (ne_pair_of_ne hne)]
    rw [hgrid, List.map_congr_left hfleet]
    exact hinv.hits_eq
  case occ_eq => exact hinv.occ_eq

/-- In a well-formed state, a `Ship idx` cell belongs to ship `idx`'s
positions and to no other ship's. -/
theorem positions_unique {g : BattleshipGame} {row col idx : Nat}
    (hinv : StateInv g)
    (hb : gridGet g.board row col = some (Cell.Ship idx)) :
    ∀ j b, g.ships[j]? = some b → j ≠ idx → (row, col) ∉ b.positions := by
  intro j b hj hne hmem
  have hcell := hinv.pos_cell j b hj (row, col) hmem
  dsimp only at hcell
  rw [hb] at hcell
  exact hne (Cell.Ship.inj (Option.some.inj hcell)).symm

theorem mem_positions_of_cell {g : BattleshipGame} {row col idx : Nat}
    {ship : Ship} (hinv : StateInv g)
    (hb : gridGet g.board row col = some (Cell.Ship idx))
    (hship : g.ships[idx]? = some ship) :
    (row, col) ∈ ship.positions := by
  obtain ⟨s, hs', hmem⟩ := hinv.cell_pos row col idx hb
  rw [hship] at hs'
  exact (Option.some.inj hs') ▸ hmem

/-- The hit branch of `shoot` (before any `sunk` update) preserves the
structural invariant. -/
theorem stateInv_hit {g : BattleshipGame} {row col idx : Nat} {ship : Ship}
    (hinv : StateInv g)
    (hs : gridGet g.shots row col = some Shot.Untargeted)
    (hb : gridGet g.board row col = some (Cell.Ship idx))
    (hship : g.ships[idx]? = some ship)
    (t : Nat) (m : String) :
    StateInv { g with turns := t,
                      shots := gridSet g.shots row col Shot.Hit,
                      message := m } := by
  have hmem := mem_positions_of_cell hinv hb hship
  have honly := positions_unique hinv hb
  constructor
  case board_len => exact hinv.board_len
  case board_cols => exact hinv.board_cols
  case shots_len =>
    show (gridSet g.shots row col Shot.Hit).length = g.rows
    rw [gridSet_length]; exact hinv.shots_len
  case shots_cols =>
    exact gridSet_cols row col Shot.Hit hinv.shots_cols
  case manifest => exact hinv.manifest
  case pos_len => exact hinv.pos_len
  case pos_nodup => exact hinv.pos_nodup
  case pos_line => exact hinv.pos_line
  case pos_inb => exact hinv.pos_inb
  case pos_cell => exact hinv.pos_cell
  case cell_pos => exact hinv.cell_pos
  case hit_occ =>
    intro r c hhit
    dsimp only at hhit ⊢
    by_cases hp : r = row ∧ c = col
    · obtain ⟨rfl, rfl⟩ := hp
      exact ⟨idx, hb⟩
    · rw [gridGet_gridSet_ne row col Shot.Hit hp] at hhit
      exact hinv.hit_occ r c hhit
  case sunk_hit =>
    intro s hsm hsunk p hp
    dsimp only at hsm ⊢
    by_cases hpe : p = (row, col)
    · subst hpe
      exact gridGet_gridSet_self Shot.Hit hs
    · rw [gridGet_gridSet_ne row col Shot.Hit (ne_pair_of_ne hpe)]
      exact hinv.sunk_hit s hsm hsunk p hp
  case hits_eq =>
    show hitCount (gridSet g.shots row col Shot.Hit) =
      (g.ships.map (shipHits (gridSet g.shots row col Shot.Hit))).sum
    have hgrid : hitCount (gridSet g.shots row col Shot.Hit) =
        hitCount g.shots + 1 := by
      unfold hitCount
      have hc := gridCountP_gridSet Shot.Hit
        (fun s => decide (s = Shot.Hit)) hs
      rw [if_neg (by simp), if_pos (by simp)] at hc
      omega
    have hat : shipHits (gridSet g.shots row col Shot.Hit) ship =
        shipHits g.shots ship + 1 := by
      unfold shipHits
      have hcnt := countP_update
        (l := ship.positions) (a := ((row : Nat), (col : Nat)))
        (p := fun p => decide (gridGet g.shots p.1 p.2 = some Shot.Hit))
        (q := fun p => decide
          (gridGet (gridSet g.shots row col Shot.Hit) p.1 p.2 =
            some Shot.Hit))
        (fun x _ hx => by
          dsimp only
          rw [gridGet_gridSet_ne row col Shot.Hit (ne_pair_of_ne hx)])
        (by simp [hs])
        (by simp [gridGet_gridSet_self Shot.Hit hs])
      rw [hcnt, List.count_eq_one_of_mem
        (hinv.pos_nodup ship (List.getElem?_mem hship)) hmem]
    have hsum := sum_map_succ_at (l := g.ships) (i := idx) (a := ship)
      (shipHits g.shots)
      (shipHits (gridSet g.shots row col Shot.Hit)) hship
      (fun j b hj hne => by
        unfold shipHits
        apply countP_congr_eq
        intro p hp
        have hne' : p ≠ (row, col) := fun he => honly j b hj hne (he ▸ hp)
        rw [gridGet_gridSet_ne row col Shot.Hit (ne_pair_of_ne hne')])
      hat
    rw [hgrid, hsum]
    rw [hinv.hits_eq]
    rfl
  case occ_eq => exact hinv.occ_eq

/-- The hit branch of `shoot` with the `sunk` update preserves the
structural invariant. -/
theorem stateInv_hit_sunk {g : BattleshipGame} {row col idx : Nat}
    {ship : Ship} (hinv : StateInv g)
    (hs : gridGet g.shots row col = some Shot.Untargeted)
    (hb : gridGet g.board row col = some (Cell.Ship idx))
    (hship : g.ships[idx]? = some ship)
    (hall : allHit (gridSet g.shots row col Shot.Hit) ship.positions =
      some true)
    (t : Nat) (m : String) :
    StateInv { g with turns := t,
                      shots := gridSet g.shots row col Shot.Hit,
                      ships := g.ships.set idx { ship with sunk := true },
                      message := m } := by
  have hH := stateInv_hit hinv hs hb hship t m
  have hlt : idx < g.ships.length := getElem?_lt hship
  have hshipmem : ship ∈ g.ships := List.getElem?_mem hship
  constructor
  case board_len => exact hH.board_len
  case board_cols => exact hH.board_cols
  case shots_len => exact hH.shots_len
  case shots_cols => exact hH.shots_cols
  case manifest =>
    show (g.ships.set idx { ship with sunk := true }).map
      (fun s => (s.name, s.length)) = SHIPS
    rw [List.map_set]
    show (g.ships.map (fun s => (s.name, s.length))).set idx
      (ship.name, ship.length) = SHIPS
    rw [set_getElem?_self (by rw [List.getElem?_map, hship]; rfl)]
    exact hinv.manifest
  case pos_len =>
    intro s hsm
    rcases List.mem_or_eq_of_mem_set hsm with h | h
    · exact hinv.pos_len s h
    · subst h; exact hinv.pos_len ship hshipmem
  case pos_nodup =>
    intro s hsm
    rcases List.mem_or_eq_of_mem_set hsm with h | h
    · exact hinv.pos_nodup s h
    · subst h; exact hinv.pos_nodup ship hshipmem
  case pos_line =>
    intro s hsm
    rcases List.mem_or_eq_of_mem_set hsm with h | h
    · exact hinv.pos_line s h
    · subst h; exact hinv.pos_line ship hshipmem
  case pos_inb =>
    intro s hsm
    rcases List.mem_or_eq_of_mem_set hsm with h | h
    · exact hinv.pos_inb s h
    · subst h; exact hinv.pos_inb ship hshipmem
  case pos_cell =>
    intro j s hj p hp
    dsimp only at hj ⊢
    by_cases hje : j = idx
    · subst hje
      rw [List.getElem?_set_eq_of_lt _ hlt] at hj
      have hse := Option.some.inj hj
      subst hse
      exact hinv.pos_cell j ship hship p hp
    · rw [List.getElem?_set_ne (fun he => hje he.symm)] at hj
      exact hinv.pos_cell j s hj p hp
  case cell_pos =>
    intro r c j hcell
    dsimp only at hcell ⊢
    obtain ⟨s, hjs, hmem⟩ := hinv.cell_pos r c j hcell
    by_cases hje : j = idx
    · subst hje
      rw [hship] at hjs
      have hse := Option.some.inj hjs
      subst hse
      exact ⟨{ ship with sunk := true },
        List.getElem?_set_eq_of_lt _ hlt, hmem⟩
    · exact ⟨s, by
        rw [List.getElem?_set_ne (fun he => hje he.symm)]; exact hjs, hmem⟩
  case hit_occ => exact hH.hit_occ
  case sunk_hit =>
    intro s hsm _ p hp
    dsimp only at hsm ⊢
    rcases List.mem_or_eq_of_mem_set hsm with h | h
    · by_cases hpe : p = (row, col)
      · subst hpe
        exact gridGet_gridSet_self Shot.Hit hs
      · rename_i hsunk
        rw [gridGet_gridSet_ne row col Shot.Hit (ne_pair_of_ne hpe)]
        exact hinv.sunk_hit s h hsunk p hp
    · subst h
      exact (allHit_eq_true_iff _ _).mp hall p hp
  case hits_eq =>
    show hitCount (gridSet g.shots row col Shot.Hit) =
      ((g.ships.set idx { ship with sunk := true }).map
        (shipHits (gridSet g.shots row col Shot.Hit))).sum
    have hsum := sum_map_set (l := g.ships) (i := idx) (a := ship)
      { ship with sunk := true }
      (shipHits (gridSet g.shots row col Shot.Hit)) hship
    have heq : shipHits (gridSet g.shots row col Shot.Hit)
        { ship with sunk := true } =
        shipHits (gridSet g.shots row col Shot.Hit) ship := rfl
    rw [heq] at hsum
    have := hH.hits_eq
    unfold fleetHits at this
    dsimp only at this
    omega
  case occ_eq =>
    show occupiedCount g.board =
      ((g.ships.set idx { ship with sunk := true }).map
        (fun s => s.positions.length)).sum
    have hsum := sum_map_set (l := g.ships) (i := idx) (a := ship)
      { ship with sunk := true } (fun s => s.positions.length) hship
    dsimp only at hsum
    have := hinv.occ_eq
    omega

/-- If the structural invariant holds before the final recount and the game
was not over, the full invariant holds after `finishShot`. -/
theorem wf_finish {g0 : BattleshipGame} (hinv : StateInv g0)
    (hgo : g0.game_over = false) : GameWF (finishShot g0) := by
  obtain ⟨fb, fs, fsh, fr, fc, _, fgo, _, _⟩ := finishShot_spec g0
  refine ⟨hinv.of_eq fb fs fsh fr fc, ?_⟩
  rw [fgo, fsh, hgo, Bool.false_or]

/-- A successful `shoot` preserves the full invariant. -/
theorem wf_shoot {g g' : BattleshipGame} {row col : Nat}
    (hwf : GameWF g) (h : shoot g row col = some g') : GameWF g' := by
  obtain ⟨hinv, hgo⟩ := hwf
  rcases shoot_cases h with ⟨_, rfl⟩ | ⟨_, _, rfl⟩ |
    ⟨hF, hs, hb, rfl⟩ |
    ⟨hF, hs, idx, ship, hb, hship, ⟨hall, rfl⟩ | ⟨hall, rfl⟩⟩
  · exact ⟨hinv.of_eq rfl rfl rfl rfl rfl, hgo⟩
  · exact ⟨hinv.of_eq rfl rfl rfl rfl rfl, hgo⟩
  · exact wf_finish (stateInv_miss hinv hs hb (g.turns + 1) _) hF
  · exact wf_finish
      (stateInv_hit_sunk hinv hs hb hship hall (g.turns + 1) _) hF
  · exact wf_finish (stateInv_hit hinv hs hb hship (g.turns + 1) _) hF

/-- Fields of the state that `shoot` never modifies, and the turn counter
increment. -/
theorem shoot_frame {g g' : BattleshipGame} {row col : Nat}
    (h : shoot g row col = some g') :
    g'.board = g.board ∧ g'.rows = g.rows ∧ g'.cols = g.cols ∧
      g'.turns = g.turns + 1 := by
  rcases shoot_cases h with ⟨_, rfl⟩ | ⟨_, _, rfl⟩ |
    ⟨_, _, _, rfl⟩ |
    ⟨_, _, idx, ship, _, _, ⟨_, rfl⟩ | ⟨_, rfl⟩⟩
  · exact ⟨rfl, rfl, rfl, rfl⟩
  · exact ⟨rfl, rfl, rfl, rfl⟩
  · obtain ⟨fb, _, _, fr, fc, ft, _, _, _⟩ := finishShot_spec _
    exact ⟨fb, fr, fc, ft⟩
  · obtain ⟨fb, _, _, fr, fc, ft, _, _, _⟩ := finishShot_spec _
    exact ⟨fb, fr, fc, ft⟩
  · obtain ⟨fb, _, _, fr, fc, ft, _, _, _⟩ := finishShot_spec _
    exact ⟨fb, fr, fc, ft⟩

/-! ### Fleet placement: invariant established by `start_game` -/

theorem getElem?_append_lt {l m : List α} {i : Nat} (h : i < l.length) :
    (l ++ m)[i]? = l[i]? := by
  rw [List.getElem?_append]
  simp [h]

theorem shipCells_length (dir : Bool) (row col len : Nat) :
    (shipCells dir row col len).length = len := by
  unfold shipCells
  rw [List.length_map, List.length_range]

theorem shipCells_nodup (dir : Bool) (row col len : Nat) :
    (shipCells dir row col len).Nodup := by
  unfold shipCells
  apply List.Nodup.map _ (List.nodup_range len)
  intro a b hab
  cases dir <;> simp only [if_true, if_false, Bool.false_eq_true] at hab <;>
    (try rw [Prod.mk.injEq] at hab) <;> omega

theorem canPlace_spec {board : List (List Cell)} {rows cols : Nat}
    {cells : List (Nat × Nat)} (h : canPlace board rows cols cells = true) :
    ∀ p ∈ cells, p.1 < rows ∧ p.2 < cols ∧
      gridGet board p.1 p.2 = some Cell.Empty := by
  unfold canPlace at h
  rw [List.all_eq_true] at h
  intro p hp
  have := h p hp
  simp only [Bool.and_eq_true, decide_eq_true_eq] at this
  exact ⟨this.1.1, this.1.2, this.2⟩

theorem markCells_nil (board : List (List Cell)) (i : Nat) :
    markCells board [] i = board := rfl

theorem markCells_cons (board : List (List Cell)) (q : Nat × Nat)
    (rest : List (Nat × Nat)) (i : Nat) :
    markCells board (q :: rest) i =
      markCells (gridSet board q.1 q.2 (Cell.Ship i)) rest i := rfl

theorem markCells_length (board : List (List Cell))
    (cells : List (Nat × Nat)) (i : Nat) :
    (markCells board cells i).length = board.length := by
  induction cells generalizing board with
  | nil => rfl
  | cons q rest ih =>
    rw [markCells_cons, ih, gridSet_length]

theorem markCells_cols {board : List (List Cell)} {cols : Nat}
    (cells : List (Nat × Nat)) (i : Nat)
    (h : ∀ row ∈ board, row.length = cols) :
    ∀ row ∈ markCells board cells i, row.length = cols := by
  induction cells generalizing board with
  | nil => exact h
  | cons q rest ih =>
    rw [markCells_cons]
    exact ih (gridSet_cols q.1 q.2 (Cell.Ship i) h)

theorem markCells_get_not_mem {board : List (List Cell)}
    {cells : List (Nat × Nat)} {i : Nat} {r c : Nat}
    (h : (r, c) ∉ cells) :
    gridGet (markCells board cells i) r c = gridGet board r c := by
  induction cells generalizing board with
  | nil => rfl
  | cons q rest ih =>
    rw [markCells_cons]
    have hq : (r, c) ≠ q := fun he => h (he ▸ List.mem_cons_self q rest)
    rw [ih (fun hmem => h (List.mem_cons_of_mem q hmem))]
    apply gridGet_gridSet_ne
    intro hc
    exact hq (by
      obtain ⟨h1, h2⟩ := hc
      cases q
      simp_all)

theorem markCells_get_mem {board : List (List Cell)}
    {cells : List (Nat × Nat)} {i : Nat}
    (hnd : cells.Nodup)
    (hin : ∀ p ∈ cells, ∃ a, gridGet board p.1 p.2 = some a) :
    ∀ p ∈ cells, gridGet (markCells board cells i) p.1 p.2 =
      some (Cell.Ship i) := by
  induction cells generalizing board with
  | nil => intro p hp; exact absurd hp (List.not_mem_nil p)
  | cons q rest ih =>
    intro p hp
    rw [markCells_cons]
    have hnd' := List.nodup_cons.mp hnd
    rcases List.mem_cons.mp hp with rfl | hp'
    · have hset : gridGet (gridSet board p.1 p.2 (Cell.Ship i)) p.1 p.2 =
          some (Cell.Ship i) := by
        obtain ⟨a, ha⟩ := hin p (List.mem_cons_self p rest)
        exact gridGet_gridSet_self (Cell.Ship i) ha
      have : (p.1, p.2) ∉ rest := by
        intro hmem
        exact hnd'.1 (by simpa using hmem)
      rw [markCells_get_not_mem this]
      exact hset
    · apply ih hnd'.2 _ p hp'
      intro p2 hp2
      obtain ⟨a, ha⟩ := hin p2 (List.mem_cons_of_mem q hp2)
      have hne : p2 ≠ q := fun he => hnd'.1 (he ▸ hp2)
      refine ⟨a, ?_⟩
      rw [gridGet_gridSet_ne q.1 q.2 (Cell.Ship i)
        (fun hc => hne (Prod.ext hc.1 hc.2))]
      exact ha

theorem markCells_occ {board : List (List Cell)}
    {cells : List (Nat × Nat)} {i : Nat}
    (hempty : ∀ p ∈ cells, gridGet board p.1 p.2 = some Cell.Empty)
    (hnd : cells.Nodup) :
    occupiedCount (markCells board cells i) =
      occupiedCount board + cells.length := by
  induction cells generalizing board with
  | nil => rfl
  | cons q rest ih =>
    rw [markCells_cons]
    have hnd' := List.nodup_cons.mp hnd
    have hq := hempty q (List.mem_cons_self q rest)
    have hone : occupiedCount (gridSet board q.1 q.2 (Cell.Ship i)) =
        occupiedCount board + 1 := by
      unfold occupiedCount
      have hc := gridCountP_gridSet (Cell.Ship i)
        (fun c => decide (c ≠ Cell.Empty)) hq
      rw [if_neg (by simp), if_pos (by simp)] at hc
      omega
    have hrest : ∀ p ∈ rest,
        gridGet (gridSet board q.1 q.2 (Cell.Ship i)) p.1 p.2 =
          some Cell.Empty := by
      intro p hp
      have hne : p ≠ q := fun he => hnd'.1 (he ▸ hp)
      rw [gridGet_gridSet_ne q.1 q.2 (Cell.Ship i)
        (fun hc => hne (Prod.ext hc.1 hc.2))]
      exact hempty p (List.mem_cons_of_mem q hp)
    rw [ih hrest hnd'.2, hone]
    simp [Nat.add_assoc, Nat.add_comm 1 rest.length]

theorem placeShipLoop_spec {rows cols idx len : Nat} :
    ∀ {choices : List (Bool × Nat × Nat)} {board b2 : List (List Cell)}
      {cells : List (Nat × Nat)} {rest : List (Bool × Nat × Nat)},
    placeShipLoop rows cols idx len choices board = some (b2, cells, rest) →
    ∃ dir r c, cells = shipCells dir r c len ∧
      canPlace board rows cols cells = true ∧
      b2 = markCells board cells idx := by
  intro choices
  induction choices with
  | nil => intro board b2 cells rest h; exact absurd h (by simp [placeShipLoop])
  | cons ch tl ih =>
    intro board b2 cells rest h
    obtain ⟨dir, r, c⟩ := ch
    unfold placeShipLoop at h
    by_cases hcp : canPlace board rows cols (shipCells dir r c len) = true
    · rw [if_pos hcp] at h
      obtain ⟨h1, rfl, rfl⟩ := Prod.mk.injEq .. ▸ Option.some.inj h
      exact ⟨dir, r, c, rfl, hcp, h1.symm⟩
    · rw [if_neg hcp] at h
      exact ih h

/-- Invariant threaded through the fleet-placement loop: the board has the
right shape, already-placed ships are well-formed lines marked on the
board, the board holds nothing else, and the occupied-cell count matches
the placed positions. -/
structure PlaceInv (rows cols : Nat) (board : List (List Cell))
    (ships : List Ship) : Prop where
  board_len : board.length = rows
  board_cols : ∀ row ∈ board, row.length = cols
  ship_shape : ∀ s ∈ ships, s.positions.length = s.length ∧
    s.positions.Nodup ∧
    (∃ dir r c, s.positions = shipCells dir r c s.length) ∧
    (∀ p ∈ s.positions, p.1 < rows ∧ p.2 < cols) ∧ s.sunk = false
  pos_cell : ∀ i s, ships[i]? = some s → ∀ p ∈ s.positions,
    gridGet board p.1 p.2 = some (Cell.Ship i)
  cell_pos : ∀ r c i, gridGet board r c = some (Cell.Ship i) →
    ∃ s, ships[i]? = some s ∧ (r, c) ∈ s.positions
  occ_eq : occupiedCount board = (ships.map (fun s => s.positions.length)).sum

/-- Accepting one candidate placement extends the placement invariant. -/
theorem placeInv_extend {rows cols : Nat} {board : List (List Cell)}
    {ships : List Ship} {name : String} {len : Nat} {dir : Bool} {r c : Nat}
    (hinv : PlaceInv rows cols board ships)
    (hcp : canPlace board rows cols (shipCells dir r c len) = true) :
    PlaceInv rows cols
      (markCells board (shipCells dir r c len) ships.length)
      (ships ++ [{ name := name, length := len,
                   positions := shipCells dir r c len, sunk := false }]) := by
  have hspec := canPlace_spec hcp
  have hnd := shipCells_nodup dir r c len
  have hlen := shipCells_length dir r c len
  have hnew : ∀ s : Ship,
      s ∈ [{ name := name, length := len,
             positions := shipCells dir r c len, sunk := false }] →
      s = { name := name, length := len,
            positions := shipCells dir r c len, sunk := false } := by
    intro s hs
    simpa using hs
  have happ : (ships ++ [{ name := name, length := len,
                           positions := shipCells dir r c len,
                           sunk := false }])[ships.length]? =
      some { name := name, length := len,
             positions := shipCells dir r c len, sunk := false } := by
    simp
  constructor
  case board_len => rw [markCells_length]; exact hinv.board_len
  case board_cols => exact markCells_cols _ _ hinv.board_cols
  case ship_shape =>
    intro s hs
    rcases List.mem_append.mp hs with h | h
    · exact hinv.ship_shape s h
    · have hse := hnew s h
      subst hse
      refine ⟨hlen, hnd, ⟨dir, r, c, rfl⟩, ?_, rfl⟩
      intro p hp
      exact ⟨(hspec p hp).1, (hspec p hp).2.1⟩
  case pos_cell =>
    intro i s hi p hp
    by_cases hilt : i < ships.length
    · rw [getElem?_append_lt hilt] at hi
      have hold := hinv.pos_cell i s hi p hp
      have hpnot : (p.1, p.2) ∉ shipCells dir r c len := by
        intro hmem
        have hemp := (hspec (p.1, p.2) hmem).2.2
        dsimp only at hemp
        rw [hold] at hemp
        exact Cell.noConfusion (Option.some.inj hemp)
      rw [markCells_get_not_mem hpnot]
      exact hold
    · by_cases hieq : i = ships.length
      · subst hieq
        rw [happ] at hi
        have hsx := (Option.some.inj hi).symm
        subst hsx
        have hp' : (p.1, p.2) ∈ shipCells dir r c len := by simpa using hp
        exact markCells_get_mem hnd
          (fun q hq => ⟨Cell.Empty, (hspec q hq).2.2⟩) (p.1, p.2) hp'
      · exfalso
        have hge : (ships ++ [({ name := name, length := len,
                                 positions := shipCells dir r c len,
                                 sunk := false } : Ship)]).length ≤ i := by
          simp only [List.length_append, List.length_singleton]
          omega
        rw [List.getElem?_eq_none hge] at hi
        exact Option.noConfusion hi
  case cell_pos =>
    intro r' c' i hcell
    by_cases hmem : (r', c') ∈ shipCells dir r c len
    · have hval := markCells_get_mem (i := ships.length) hnd
        (fun q hq => ⟨Cell.Empty, (hspec q hq).2.2⟩) (r', c') hmem
      dsimp only at hval
      rw [hcell] at hval
      have hieq : i = ships.length :=
        (Cell.Ship.inj (Option.some.inj hval).symm).symm
      subst hieq
      exact ⟨{ name := name, length := len,
               positions := shipCells dir r c len, sunk := false },
        happ, hmem⟩
    · rw [markCells_get_not_mem hmem] at hcell
      obtain ⟨s, hi, hmem'⟩ := hinv.cell_pos r' c' i hcell
      exact ⟨s, by rw [getElem?_append_lt (getElem?_lt hi)]; exact hi, hmem'⟩
  case occ_eq =>
    rw [markCells_occ (fun q hq => (hspec q hq).2.2) hnd,
      List.map_append, List.sum_append]
    have := hinv.occ_eq
    simp only [List.map_cons, List.map_nil, List.sum_cons, List.sum_nil]
    omega

theorem placeFleet_inv (rows cols : Nat) :
    ∀ (manifest : List (String × Nat)) (choices : List (Bool × Nat × Nat))
      (board : List (List Cell)) (ships : List Ship)
      (board2 : List (List Cell)) (ships2 : List Ship),
    placeFleet rows cols manifest ships.length choices board ships =
      some (board2, ships2) →
    PlaceInv rows cols board ships →
    PlaceInv rows cols board2 ships2 ∧
    ships2.map (fun s => (s.name, s.length)) =
      ships.map (fun s => (s.name, s.length)) ++ manifest := by
  intro manifest
  induction manifest with
  | nil =>
    intro choices board ships board2 ships2 h hinv
    unfold placeFleet at h
    obtain ⟨rfl, rfl⟩ := Prod.mk.injEq .. ▸ Option.some.inj h
    exact ⟨hinv, by simp⟩
  | cons entry rest ih =>
    intro choices board ships board2 ships2 h hinv
    obtain ⟨name, len⟩ := entry
    unfold placeFleet at h
    rcases hloop : placeShipLoop rows cols ships.length len choices board with
      _ | ⟨b2, cells, choices2⟩
    · rw [hloop] at h
      exact absurd h (by simp)
    · rw [hloop] at h
      dsimp only at h
      obtain ⟨dir, r, c, rfl, hcp, rfl⟩ := placeShipLoop_spec hloop
      have hlen2 : ships.length + 1 =
          (ships ++ [({ name := name, length := len,
                        positions := shipCells dir r c len,
                        sunk := false } : Ship)]).length := by simp
      rw [hlen2] at h
      obtain ⟨hres, hmap⟩ := ih choices2 _ _ board2 ships2 h
        (placeInv_extend hinv hcp)
      refine ⟨hres, ?_⟩
      rw [hmap, List.map_append]
      simp

theorem gridGet_replicate (rows cols : Nat) (v : α) (r c : Nat) :
    gridGet (List.replicate rows (List.replicate cols v)) r c =
      if r < rows ∧ c < cols then some v else none := by
  unfold gridGet
  rw [List.getElem?_replicate]
  by_cases hr : r < rows
  · rw [if_pos hr, Option.some_bind, List.getElem?_replicate]
    by_cases hc : c < cols
    · rw [if_pos hc, if_pos ⟨hr, hc⟩]
    · rw [if_neg hc, if_neg (fun hand => hc hand.2)]
  · rw [if_neg hr, Option.none_bind, if_neg (fun hand => hr hand.1)]

theorem placeInv_init (rows cols : Nat) :
    PlaceInv rows cols
      (List.replicate rows (List.replicate cols Cell.Empty)) [] := by
  constructor
  case board_len => exact List.length_replicate ..
  case board_cols =>
    intro row h
    rw [List.eq_of_mem_replicate h]
    exact List.length_replicate ..
  case ship_shape => intro s hs; exact absurd hs (List.not_mem_nil s)
  case pos_cell => intro i s hi; simp at hi
  case cell_pos =>
    intro r c i hcell
    exfalso
    rw [gridGet_replicate] at hcell
    by_cases hrc : r < rows ∧ c < cols
    · rw [if_pos hrc] at hcell
      exact Cell.noConfusion (Option.some.inj hcell)
    · rw [if_neg hrc] at hcell
      exact Option.noConfusion hcell
  case occ_eq =>
    simp only [List.map_nil, List.sum_nil]
    unfold occupiedCount gridCountP
    apply List.sum_eq_zero
    intro x hx
    obtain ⟨row, hrowmem, rfl⟩ := List.mem_map.mp hx
    rw [List.eq_of_mem_replicate hrowmem, List.countP_eq_zero]
    intro a ha
    rw [List.eq_of_mem_replicate ha]
    simp

/-- A successful `start_game` establishes the full invariant and the fresh
initial fields. -/
theorem start_game_inv {choices : List (Bool × Nat × Nat)}
    {rows cols : Nat} {g : BattleshipGame}
    (h : start_game choices rows cols = some g) :
    GameWF g ∧ g.rows = rows ∧ g.cols = cols ∧ g.turns = 0 ∧
    g.game_over = false ∧ g.play_again = false ∧
    g.message = "Game started!" ∧
    g.shots = List.replicate rows (List.replicate cols Shot.Untargeted) ∧
    (∀ s ∈ g.ships, s.sunk = false) := by
  unfold start_game at h
  rcases hpf : placeFleet rows cols SHIPS 0 choices
      (List.replicate rows (List.replicate cols Cell.Empty)) [] with
    _ | ⟨board, ships⟩
  · rw [hpf] at h
    exact absurd h (by simp)
  · rw [hpf] at h
    dsimp only at h
    have hg := (Option.some.inj h).symm
    subst hg
    obtain ⟨hres, hmap⟩ := placeFleet_inv rows cols SHIPS choices
      _ [] board ships hpf (placeInv_init rows cols)
    rw [List.map_nil, List.nil_append] at hmap
    have hship_shape := hres.ship_shape
    have hne : ships ≠ [] := by
      intro he
      rw [he] at hmap
      exact List.noConfusion hmap
    have hall : ships.all (fun s => s.sunk) = false := by
      rcases hships : ships with _ | ⟨s0, t⟩
      · exact absurd hships hne
      · have hs0 : s0 ∈ ships := hships ▸ List.mem_cons_self s0 t
        have hsunk := (hship_shape s0 hs0).2.2.2.2
        rw [List.all_cons, hsunk, Bool.false_and]
    have huntargeted : ∀ r c s,
        gridGet (List.replicate rows
          (List.replicate cols Shot.Untargeted)) r c = some s →
        s = Shot.Untargeted := by
      intro r c s hs
      rw [gridGet_replicate] at hs
      by_cases hrc : r < rows ∧ c < cols
      · rw [if_pos hrc] at hs
        exact (Option.some.inj hs).symm
      · rw [if_neg hrc] at hs
        exact absurd hs (by simp)
    refine ⟨⟨?_, hall.symm⟩, rfl, rfl, rfl, rfl, rfl, rfl, rfl,
      fun s hs => (hship_shape s hs).2.2.2.2⟩
    constructor
    case board_len => exact hres.board_len
    case board_cols => exact hres.board_cols
    case shots_len => exact List.length_replicate ..
    case shots_cols =>
      intro row hrow
      rw [List.eq_of_mem_replicate hrow]
      exact List.length_replicate ..
    case manifest => exact hmap
    case pos_len => intro s hs; exact (hship_shape s hs).1
    case pos_nodup => intro s hs; exact (hship_shape s hs).2.1
    case pos_line => intro s hs; exact (hship_shape s hs).2.2.1
    case pos_inb => intro s hs; exact (hship_shape s hs).2.2.2.1
    case pos_cell => exact hres.pos_cell
    case cell_pos => exact hres.cell_pos
    case hit_occ =>
      intro r c hhit
      exact absurd (huntargeted r c Shot.Hit hhit) (by simp)
    case sunk_hit =>
      intro s hs hsunk
      exact absurd ((hship_shape s hs).2.2.2.2 ▸ hsunk) (by simp)
    case hits_eq =>
      have hzero : hitCount (List.replicate rows
          (List.replicate cols Shot.Untargeted)) = 0 := by
        unfold hitCount gridCountP
        apply List.sum_eq_zero
        intro x hx
        obtain ⟨row, hrowmem, rfl⟩ := List.mem_map.mp hx
        rw [List.eq_of_mem_replicate hrowmem, List.countP_eq_zero]
        intro a ha
        rw [List.eq_of_mem_replicate ha]
        simp
      rw [hzero]
      unfold fleetHits
      symm
      apply List.sum_eq_zero
      intro x hx
      obtain ⟨s, hsmem, rfl⟩ := List.mem_map.mp hx
      unfold shipHits
      rw [List.countP_eq_zero]
      intro p hp
      simp only [decide_eq_true_eq]
      intro habs
      exact absurd (huntargeted p.1 p.2 Shot.Hit habs) (by simp)
    case occ_eq => exact hres.occ_eq

/-- Every reachable state satisfies the full invariant. -/
theorem wf_reachable {g : BattleshipGame} (h : Reachable g) : GameWF g := by
  induction h with
  | start choices rows cols g hstart =>
    exact (start_game_inv hstart).1
  | step g g' row col _ _ _ hshoot ih =>
    exact wf_shoot ih hshoot

/-! ### `game_stats` as a declarative projection -/

theorem foldl_cell_count (row : List Shot) : ∀ acc : Nat × Nat,
    row.foldl (fun acc2 cell => match cell with
      | Shot.Hit => (acc2.1 + 1, acc2.2)
      | Shot.Miss => (acc2.1, acc2.2 + 1)
      | Shot.Untargeted => acc2) acc =
    (acc.1 + row.countP (fun s => decide (s = Shot.Hit)),
     acc.2 + row.countP (fun s => decide (s = Shot.Miss))) := by
  induction row with
  | nil => intro acc; simp
  | cons s t ih =>
    intro acc
    rw [List.foldl_cons, ih]
    cases s <;> simp [List.countP_cons, Prod.ext_iff] <;> omega

theorem foldl_grid_count (shots : List (List Shot)) : ∀ acc : Nat × Nat,
    shots.foldl (fun acc row =>
      row.foldl (fun acc2 cell => match cell with
        | Shot.Hit => (acc2.1 + 1, acc2.2)
        | Shot.Miss => (acc2.1, acc2.2 + 1)
        | Shot.Untargeted => acc2) acc) acc =
    (acc.1 + hitCount shots, acc.2 + missCount shots) := by
  induction shots with
  | nil => intro acc; simp [hitCount, missCount, gridCountP]
  | cons row rest ih =>
    intro acc
    rw [List.foldl_cons, foldl_cell_count, ih]
    simp only [hitCount, missCount, gridCountP, List.map_cons,
      List.sum_cons, Prod.ext_iff]
    omega

/-- The imperative counting loop of `game_stats` computes the declarative
counts. -/
theorem game_stats_spec (g : BattleshipGame) :
    game_stats g = { turns := g.turns,
                     hits := hitCount g.shots,
                     misses := missCount g.shots,
                     ships_left := shipsLeft g.ships,
                     total_ships := g.ships.length } := by
  unfold game_stats shipsLeft
  rw [foldl_grid_count]
  simp

theorem shipsLeft_zero_iff (ships : List Ship) :
    (ships.filter (fun s => !s.sunk)).length = 0 ↔
      ships.all (fun s => s.sunk) = true := by
  rw [List.length_eq_zero, List.filter_eq_nil_iff, List.all_eq_true]
  constructor
  · intro h s hs
    have := h s hs
    simpa using this
  · intro h s hs
    simp [h s hs]

/-! ### A concrete game used to witness the hypotheses of the theorems -/

/-- Random draws that place the three ships in the first three rows of a
4×4 board. -/
def demoChoices : List (Bool × Nat × Nat) :=
  [(true, 0, 0), (true, 1, 0), (true, 2, 0)]

/-- The state `new_game demoChoices 4 4` produces. -/
def demoGame : BattleshipGame :=
  { board := [[Cell.Ship 0, Cell.Ship 0, Cell.Empty, Cell.Empty],
              [Cell.Ship 1, Cell.Ship 1, Cell.Ship 1, Cell.Empty],
              [Cell.Ship 2, Cell.Ship 2, Cell.Ship 2, Cell.Ship 2],
              [Cell.Empty, Cell.Empty, Cell.Empty, Cell.Empty]],
    shots := List.replicate 4 (List.replicate 4 Shot.Untargeted),
    ships := [{ name := "Destroyer", length := 2,
                positions := [(0, 0), (0, 1)], sunk := false },
              { name := "Cruiser", length := 3,
                positions := [(1, 0), (1, 1), (1, 2)], sunk := false },
              { name := "Battleship", length := 4,
                positions := [(2, 0), (2, 1), (2, 2), (2, 3)],
                sunk := false }],
    game_over := false,
    message := "Game started!",
    play_again := false,
    rows := 4,
    cols := 4,
    turns := 0 }

theorem demoGame_new : new_game demoChoices 4 4 = some demoGame := by
  rfl

theorem demoGame_reachable : Reachable demoGame :=
  Reachable.start demoChoices 4 4 demoGame demoGame_new

/-! ### Shared helpers for the claim theorems -/

theorem bool_eq_false {b : Bool} (h : ¬b = true) : b = false := by
  cases b
  · rfl
  · exact absurd rfl h

theorem finishShot_id {g0 : BattleshipGame}
    (h : (g0.ships.filter (fun s => !s.sunk)).length ≠ 0) :
    finishShot g0 = g0 := by
  unfold finishShot
  rw [if_neg h]

/-- A fleet that is not all sunk still has an unsunk ship. -/
theorem shipsLeft_ne_zero_of_all {ships : List Ship}
    (hall : ships.all (fun s => s.sunk) = false) :
    (ships.filter (fun s => !s.sunk)).length ≠ 0 := by
  intro hz
  rw [(shipsLeft_zero_iff ships).mp hz] at hall
  exact Bool.noConfusion hall

/-- In a reachable state that is not over, some ship is still afloat. -/
theorem shipsLeft_ne_zero {g : BattleshipGame} (hwf : GameWF g)
    (hgo : g.game_over = false) :
    (g.ships.filter (fun s => !s.sunk)).length ≠ 0 :=
  shipsLeft_ne_zero_of_all (hwf.2.symm.trans hgo)

/-- In a well-formed state, every in-bounds `shoot` succeeds. -/
theorem shoot_total {g : BattleshipGame} (hwf : GameWF g) {row col : Nat}
    (hr : row < g.rows) (hc : col < g.cols) :
    ∃ g', shoot g row col = some g' := by
  obtain ⟨hinv, _⟩ := hwf
  by_cases hover : g.game_over = true
  · exact ⟨_, shoot_game_over row col hover⟩
  · have hgo' := bool_eq_false hover
    obtain ⟨s, hs⟩ := gridGet_of_lt hinv.shots_len hinv.shots_cols hr hc
    by_cases hu : s = Shot.Untargeted
    · subst hu
      obtain ⟨cell, hb⟩ := gridGet_of_lt hinv.board_len hinv.board_cols hr hc
      cases cell with
      | Empty => exact ⟨_, shoot_miss_eq hgo' hs hb⟩
      | Ship idx =>
        obtain ⟨ship, hship, _⟩ := hinv.cell_pos row col idx hb
        have hlk : ∀ p ∈ ship.positions, ∃ v,
            gridGet (gridSet g.shots row col Shot.Hit) p.1 p.2 = some v := by
          intro p hp
          have hinb := hinv.pos_inb ship (List.getElem?_mem hship) p hp
          have hdims : (gridSet g.shots row col Shot.Hit).length = g.rows := by
            rw [gridSet_length]; exact hinv.shots_len
          exact gridGet_of_lt hdims
            (gridSet_cols row col Shot.Hit hinv.shots_cols) hinb.1 hinb.2
        obtain ⟨b, hall⟩ := allHit_isSome _ _ hlk
        cases b with
        | true => exact ⟨_, shoot_hit_sunk_eq hgo' hs hb hship hall⟩
        | false => exact ⟨_, shoot_hit_nosunk_eq hgo' hs hb hship hall⟩
    · exact ⟨_, shoot_already_targeted hgo' hs hu⟩

/-- A cell already written (not `Untargeted`) makes `shoot` a pure turn
increment. -/
theorem shoot_of_written {g1 : BattleshipGame} {row col : Nat} {v : Shot}
    (hlk : gridGet g1.shots row col = some v) (hv : v ≠ Shot.Untargeted) :
    shoot g1 row col = some { g1 with turns := g1.turns + 1 } := by
  by_cases hgo : g1.game_over = true
  · exact shoot_game_over row col hgo
  · exact shoot_already_targeted (bool_eq_false hgo) hlk hv

/-- One shot never clears `game_over` and never clears a `sunk` flag. -/
theorem shoot_mono {g g1 : BattleshipGame} {row col : Nat}
    (h : shoot g row col = some g1) :
    (g.game_over = true → g1.game_over = true) ∧
    (∀ (idx : Nat) (s : Ship), g.ships[idx]? = some s → s.sunk = true →
      ∃ s', g1.ships[idx]? = some s' ∧ s'.sunk = true) := by
  rcases shoot_cases h with ⟨_, rfl⟩ | ⟨_, _, rfl⟩ |
    ⟨hF, _, _, rfl⟩ |
    ⟨hF, _, idx, ship, _, hship, ⟨_, rfl⟩ | ⟨_, rfl⟩⟩
  · exact ⟨fun hT => hT, fun idx s hi hsunk => ⟨s, hi, hsunk⟩⟩
  · exact ⟨fun hT => hT, fun idx s hi hsunk => ⟨s, hi, hsunk⟩⟩
  · refine ⟨fun hT => absurd (hF ▸ hT) (by simp), ?_⟩
    intro j s hi hsunk
    refine ⟨s, ?_, hsunk⟩
    rw [(finishShot_spec _).2.2.1]
    exact hi
  · refine ⟨fun hT => absurd (hF ▸ hT) (by simp), ?_⟩
    intro j s hi hsunk
    by_cases hje : j = idx
    · subst hje
      refine ⟨{ ship with sunk := true }, ?_, rfl⟩
      rw [(finishShot_spec _).2.2.1]
      exact List.getElem?_set_eq_of_lt _ (getElem?_lt hship)
    · refine ⟨s, ?_, hsunk⟩
      rw [(finishShot_spec _).2.2.1]
      show (g.ships.set idx { ship with sunk := true })[j]? = some s
      rw [List.getElem?_set_ne (fun he => hje he.symm)]
      exact hi
  · refine ⟨fun hT => absurd (hF ▸ hT) (by simp), ?_⟩
    intro j s hi hsunk
    refine ⟨s, ?_, hsunk⟩
    rw [(finishShot_spec _).2.2.1]
    exact hi

/-- The state after `shoot demoGame 3 3` (a miss at the empty corner). -/
def demoMissGame : BattleshipGame :=
  { demoGame with
      turns := 1,
      message := "Miss at (4, 4)!",
      shots := [[Shot.Untargeted, Shot.Untargeted, Shot.Untargeted,
                 Shot.Untargeted],
                [Shot.Untargeted, Shot.Untargeted, Shot.Untargeted,
                 Shot.Untargeted],
                [Shot.Untargeted, Shot.Untargeted, Shot.Untargeted,
                 Shot.Untargeted],
                [Shot.Untargeted, Shot.Untargeted, Shot.Untargeted,
                 Shot.Miss]] }

theorem demoMissGame_shoot : shoot demoGame 3 3 = some demoMissGame := by rfl

/-! ### The claims -/

/-- C1: for every reachable state, `game_over = true` holds exactly when
every ship of the fleet has `sunk = true`, equivalently when the
`ships_left` statistic is zero. -/
theorem C1_game_over_iff_all_sunk (g : BattleshipGame) (h : Reachable g) :
    (g.game_over = true ↔ ∀ s ∈ g.ships, s.sunk = true) ∧
    (g.game_over = true ↔ (game_stats g).ships_left = 0) := by
  obtain ⟨hinv, hgo⟩ := wf_reachable h
  constructor
  · rw [hgo, List.all_eq_true]
  · rw [game_stats_spec]
    show g.game_over = true ↔ shipsLeft g.ships = 0
    unfold shipsLeft
    rw [shipsLeft_zero_iff, hgo]

/-- Witness for C1 at the concrete freshly started game. -/
theorem C1_witness :
    (demoGame.game_over = true ↔ ∀ s ∈ demoGame.ships, s.sunk = true) ∧
    (demoGame.game_over = true ↔ (game_stats demoGame).ships_left = 0) :=
  C1_game_over_iff_all_sunk demoGame demoGame_reachable

/-- C5: `game_stats` is the pure projection returning the turn counter, the
`Hit` and `Miss` counts over the whole shot grid, the number of unsunk
ships, and the fleet size; being a function of the state it mutates
nothing and is defined for every state, game over included. -/
theorem C5_game_stats_projection (g : BattleshipGame) :
    game_stats g = { turns := g.turns,
                     hits := hitCount g.shots,
                     misses := missCount g.shots,
                     ships_left := shipsLeft g.ships,
                     total_ships := g.ships.length } :=
  game_stats_spec g

/-- C7: on a reachable state an in-bounds shot always succeeds and
increments the turn counter by exactly one, so the counter strictly
increases. -/
theorem C7_turns_increment (g : BattleshipGame) (row col : Nat)
    (h : Reachable g) (hr : row < g.rows) (hc : col < g.cols) :
    ∃ g', shoot g row col = some g' ∧ g'.turns = g.turns + 1 ∧
      g.turns < g'.turns := by
  obtain ⟨g', hg'⟩ := shoot_total (wf_reachable h) hr hc
  obtain ⟨_, _, _, ht⟩ := shoot_frame hg'
  exact ⟨g', hg', ht, by omega⟩

/-- Witness for C7: the first shot of the concrete game. -/
theorem C7_witness :
    ∃ g', shoot demoGame 3 3 = some g' ∧
      g'.turns = demoGame.turns + 1 ∧ demoGame.turns < g'.turns :=
  C7_turns_increment demoGame 3 3 demoGame_reachable
    (by decide) (by decide)

/-- C10: on a reachable state with in-bounds coordinates, every indexing
step of `shoot` is in bounds: the shot-grid and board lookups return
`some`, a `Ship idx` cell has a fleet entry at `idx` whose recorded
positions all have in-bounds shot-grid entries, and `shoot` itself returns
a state rather than the `none` that models a panic. -/
theorem C10_no_out_of_bounds (g : BattleshipGame) (row col : Nat)
    (h : Reachable g) (hr : row < g.rows) (hc : col < g.cols) :
    (∃ s, gridGet g.shots row col = some s) ∧
    (∃ cell, gridGet g.board row col = some cell) ∧
    (∀ idx : Nat, gridGet g.board row col = some (Cell.Ship idx) →
      ∃ ship, g.ships[idx]? = some ship ∧
        ∀ p ∈ ship.positions, ∃ v, gridGet g.shots p.1 p.2 = some v) ∧
    (∃ g', shoot g row col = some g') := by
  have hwf := wf_reachable h
  have hinv := hwf.1
  refine ⟨gridGet_of_lt hinv.shots_len hinv.shots_cols hr hc,
    gridGet_of_lt hinv.board_len hinv.board_cols hr hc, ?_,
    shoot_total hwf hr hc⟩
  intro idx hb
  obtain ⟨ship, hship, _⟩ := hinv.cell_pos row col idx hb
  refine ⟨ship, hship, ?_⟩
  intro p hp
  have hinb := hinv.pos_inb ship (List.getElem?_mem hship) p hp
  exact gridGet_of_lt hinv.shots_len hinv.shots_cols hinb.1 hinb.2

/-- Witness for C10 at the concrete game, aimed at a ship cell. -/
theorem C10_witness :
    (∃ s, gridGet demoGame.shots 0 0 = some s) ∧
    (∃ cell, gridGet demoGame.board 0 0 = some cell) ∧
    (∀ idx : Nat, gridGet demoGame.board 0 0 = some (Cell.Ship idx) →
      ∃ ship, demoGame.ships[idx]? = some ship ∧
        ∀ p ∈ ship.positions, ∃ v, gridGet demoGame.shots p.1 p.2 = some v) ∧
    (∃ g', shoot demoGame 0 0 = some g') :=
  C10_no_out_of_bounds demoGame 0 0 demoGame_reachable
    (by decide) (by decide)

/-- C8: along any further sequence of shots from a reachable state, a
`sunk` flag never reverts to `false` and `game_over` never reverts to
`false`. -/
theorem C8_monotonicity (g g' : BattleshipGame) (hreach : Reachable g)
    (hsteps : Steps g g') :
    (g.game_over = true → g'.game_over = true) ∧
    (∀ (idx : Nat) (s : Ship), g.ships[idx]? = some s → s.sunk = true →
      ∃ s', g'.ships[idx]? = some s' ∧ s'.sunk = true) := by
  clear hreach
  induction hsteps with
  | refl => exact ⟨fun hT => hT, fun idx s hi hs => ⟨s, hi, hs⟩⟩
  | tail g1 g2 row col hst hshoot ih =>
    obtain ⟨m1, m2⟩ := shoot_mono hshoot
    refine ⟨fun hT => m1 (ih.1 hT), ?_⟩
    intro idx s hi hs
    obtain ⟨s1, hi1, hs1⟩ := ih.2 idx s hi hs
    exact m2 idx s1 hi1 hs1

/-- Witness for C8: one step of the concrete game. -/
theorem C8_witness :
    (demoGame.game_over = true → demoMissGame.game_over = true) ∧
    (∀ (idx : Nat) (s : Ship), demoGame.ships[idx]? = some s →
      s.sunk = true →
      ∃ s', demoMissGame.ships[idx]? = some s' ∧ s'.sunk = true) :=
  C8_monotonicity demoGame demoMissGame demoGame_reachable
    (Steps.tail demoGame demoGame demoMissGame 3 3
      (Steps.refl demoGame) demoMissGame_shoot)

/-- C4: an in-bounds shot on a finished game or an already-targeted cell
changes nothing but the turn counter — the resulting state is the old one
with `turns + 1`; consequently shooting the same coordinate twice only
writes the shot on the first call while the second still counts a turn. -/
theorem C4_noop_frame (g : BattleshipGame) (row col : Nat) :
    (g.game_over = true →
      shoot g row col = some { g with turns := g.turns + 1 }) ∧
    (∀ s : Shot, gridGet g.shots row col = some s → s ≠ Shot.Untargeted →
      shoot g row col = some { g with turns := g.turns + 1 }) ∧
    (∀ g1 : BattleshipGame, shoot g row col = some g1 →
      shoot g1 row col = some { g1 with turns := g1.turns + 1 }) := by
  refine ⟨fun hT => shoot_game_over row col hT,
    fun s hs hne => shoot_of_written hs hne, ?_⟩
  intro g1 h
  rcases shoot_cases h with ⟨hT, rfl⟩ | ⟨hF, ⟨s, hs, hne⟩, rfl⟩ |
    ⟨hF, hs, hb, rfl⟩ |
    ⟨hF, hs, idx, ship, hb, hship, ⟨hall, rfl⟩ | ⟨hall, rfl⟩⟩
  · exact shoot_game_over row col hT
  · exact shoot_of_written hs hne
  · refine shoot_of_written (v := Shot.Miss) ?_ (by simp)
    rw [(finishShot_spec _).2.1]
    exact gridGet_gridSet_self Shot.Miss hs
  · refine shoot_of_written (v := Shot.Hit) ?_ (by simp)
    rw [(finishShot_spec _).2.1]
    exact gridGet_gridSet_self Shot.Hit hs
  · refine shoot_of_written (v := Shot.Hit) ?_ (by simp)
    rw [(finishShot_spec _).2.1]
    exact gridGet_gridSet_self Shot.Hit hs

/-- Witness for C4: a finished copy of the concrete game, a repeated shot
at a written cell, and the two-shots-in-a-row corollary. -/
theorem C4_witness :
    (shoot { demoGame with game_over := true } 0 0 =
      some { { demoGame with game_over := true } with
               turns := { demoGame with game_over := true }.turns + 1 }) ∧
    (shoot demoMissGame 3 3 =
      some { demoMissGame with turns := demoMissGame.turns + 1 }) ∧
    (shoot demoMissGame 3 3 =
      some { demoMissGame with turns := demoMissGame.turns + 1 }) :=
  ⟨(C4_noop_frame { demoGame with game_over := true } 0 0).1 rfl,
   (C4_noop_frame demoMissGame 3 3).2.1 Shot.Miss (by rfl) (by simp),
   (C4_noop_frame demoGame 3 3).2.2 demoMissGame demoMissGame_shoot⟩

/-- C6: on a reachable, unfinished state, shooting an untargeted `Empty`
cell records `Miss` at exactly that coordinate, sets the 1-based miss
message, increments the `misses` statistic by exactly one and leaves every
ship (hence every `sunk` flag) unchanged. -/
theorem C6_miss_resolution (g : BattleshipGame) (row col : Nat)
    (h : Reachable g) (hgo : g.game_over = false)
    (hs : gridGet g.shots row col = some Shot.Untargeted)
    (hb : gridGet g.board row col = some Cell.Empty) :
    ∃ g', shoot g row col = some g' ∧
      gridGet g'.shots row col = some Shot.Miss ∧
      (∀ r c : Nat, ¬(r = row ∧ c = col) →
        gridGet g'.shots r c = gridGet g.shots r c) ∧
      g'.message = "Miss at (" ++ toString (row + 1) ++ ", " ++
        toString (col + 1) ++ ")!" ∧
      (game_stats g').misses = (game_stats g).misses + 1 ∧
      g'.ships = g.ships := by
  have hwf := wf_reachable h
  have heq := shoot_miss_eq hgo hs hb
  refine ⟨_, heq, ?_, ?_, ?_, ?_, ?_⟩
  · rw [(finishShot_spec _).2.1]
    exact gridGet_gridSet_self Shot.Miss hs
  · intro r c hne
    rw [(finishShot_spec _).2.1]
    exact gridGet_gridSet_ne row col Shot.Miss hne
  · rw [(finishShot_spec _).2.2.2.2.2.2.2.1,
      if_neg (by exact shipsLeft_ne_zero_of_all (hwf.2.symm.trans hgo))]
  · simp only [game_stats_spec]
    show missCount (finishShot _).shots = missCount g.shots + 1
    rw [(finishShot_spec _).2.1]
    show missCount (gridSet g.shots row col Shot.Miss) =
      missCount g.shots + 1
    unfold missCount
    have hc := gridCountP_gridSet Shot.Miss
      (fun s => decide (s = Shot.Miss)) hs
    rw [if_neg (by simp), if_pos (by simp)] at hc
    omega
  · rw [(finishShot_spec _).2.2.1]

/-- Witness for C6: the corner miss of the concrete game. -/
theorem C6_witness :
    ∃ g', shoot demoGame 3 3 = some g' ∧
      gridGet g'.shots 3 3 = some Shot.Miss ∧
      (∀ r c : Nat, ¬(r = 3 ∧ c = 3) →
        gridGet g'.shots r c = gridGet demoGame.shots r c) ∧
      g'.message = "Miss at (" ++ toString (3 + 1) ++ ", " ++
        toString (3 + 1) ++ ")!" ∧
      (game_stats g').misses = (game_stats demoGame).misses + 1 ∧
      g'.ships = demoGame.ships :=
  C6_miss_resolution demoGame 3 3 demoGame_reachable rfl (by rfl) (by rfl)

/-- C2: on a reachable, unfinished state, shooting an untargeted cell
occupied by ship `idx` records `Hit` there and touches no other shot
entry; when not all of that ship's coordinates are hit yet the fleet is
unchanged, the message is the 1-based hit message and the game goes on;
when all are hit the ship's `sunk` flag is set, the message becomes the
sunk message, and if no unsunk ship remains the game is over with the
victory message and the play-again flag set. -/
theorem C2_hit_resolution (g : BattleshipGame) (row col idx : Nat)
    (h : Reachable g) (hgo : g.game_over = false)
    (hs : gridGet g.shots row col = some Shot.Untargeted)
    (hb : gridGet g.board row col = some (Cell.Ship idx)) :
    ∃ g' ship, g.ships[idx]? = some ship ∧ shoot g row col = some g' ∧
      gridGet g'.shots row col = some Shot.Hit ∧
      (∀ r c : Nat, ¬(r = row ∧ c = col) →
        gridGet g'.shots r c = gridGet g.shots r c) ∧
      ((¬∀ p ∈ ship.positions, gridGet g'.shots p.1 p.2 = some Shot.Hit) →
        g'.ships = g.ships ∧
        g'.message = "Hit at (" ++ toString (row + 1) ++ ", " ++
          toString (col + 1) ++ ")!" ∧
        g'.game_over = false) ∧
      ((∀ p ∈ ship.positions, gridGet g'.shots p.1 p.2 = some Shot.Hit) →
        g'.ships = g.ships.set idx { ship with sunk := true } ∧
        (shipsLeft g'.ships ≠ 0 →
          g'.message = "You sunk the " ++ ship.name ++ "!" ∧
          g'.game_over = false) ∧
        (shipsLeft g'.ships = 0 →
          g'.game_over = true ∧
          g'.message = "Congratulations! You sunk all the ships!" ∧
          g'.play_again = true)) := by
  have hwf := wf_reachable h
  have hinv := hwf.1
  obtain ⟨ship, hship, _⟩ := hinv.cell_pos row col idx hb
  have hlk : ∀ p ∈ ship.positions, ∃ v,
      gridGet (gridSet g.shots row col Shot.Hit) p.1 p.2 = some v := by
    intro p hp
    have hinb := hinv.pos_inb ship (List.getElem?_mem hship) p hp
    have hdims : (gridSet g.shots row col Shot.Hit).length = g.rows := by
      rw [gridSet_length]; exact hinv.shots_len
    exact gridGet_of_lt hdims
      (gridSet_cols row col Shot.Hit hinv.shots_cols) hinb.1 hinb.2
  obtain ⟨b, hall⟩ := allHit_isSome _ _ hlk
  have hallf : (g.ships.all (fun s => s.sunk)) = false := hwf.2.symm.trans hgo
  cases b with
  | false =>
    have heq := shoot_hit_nosunk_eq hgo hs hb hship hall
    refine ⟨_, ship, hship, heq, ?_, ?_, ?_, ?_⟩
    · rw [(finishShot_spec _).2.1]
      exact gridGet_gridSet_self Shot.Hit hs
    · intro r c hne
      rw [(finishShot_spec _).2.1]
      exact gridGet_gridSet_ne row col Shot.Hit hne
    · intro _
      refine ⟨?_, ?_, ?_⟩
      · rw [(finishShot_spec _).2.2.1]
      · rw [(finishShot_spec _).2.2.2.2.2.2.2.1,
          if_neg (by exact shipsLeft_ne_zero_of_all hallf)]
      · rw [(finishShot_spec _).2.2.2.2.2.2.1]
        show (g.game_over || g.ships.all (fun s => s.sunk)) = false
        rw [hgo, hallf]
        rfl
    · intro hallhit
      exfalso
      have hup : ∀ p ∈ ship.positions,
          gridGet (gridSet g.shots row col Shot.Hit) p.1 p.2 =
            some Shot.Hit := by
        intro p hp
        have hx := hallhit p hp
        rw [(finishShot_spec _).2.1] at hx
        exact hx
      have := (allHit_eq_true_iff (gridSet g.shots row col Shot.Hit)
        ship.positions).mpr hup
      rw [hall] at this
      exact Bool.noConfusion (Option.some.inj this)
  | true =>
    have heq := shoot_hit_sunk_eq hgo hs hb hship hall
    have hallhit := (allHit_eq_true_iff (gridSet g.shots row col Shot.Hit)
      ship.positions).mp hall
    refine ⟨_, ship, hship, heq, ?_, ?_, ?_, ?_⟩
    · rw [(finishShot_spec _).2.1]
      exact gridGet_gridSet_self Shot.Hit hs
    · intro r c hne
      rw [(finishShot_spec _).2.1]
      exact gridGet_gridSet_ne row col Shot.Hit hne
    · intro hnall
      exfalso
      apply hnall
      intro p hp
      rw [(finishShot_spec _).2.1]
      exact hallhit p hp
    · intro _
      refine ⟨?_, ?_, ?_⟩
      · rw [(finishShot_spec _).2.2.1]
      · intro hnz
        rw [(finishShot_spec _).2.2.1] at hnz
        constructor
        · rw [(finishShot_spec _).2.2.2.2.2.2.2.1, if_neg hnz]
        · rw [(finishShot_spec _).2.2.2.2.2.2.1]
          have hallst : ((g.ships.set idx { ship with sunk := true }).all
              (fun s => s.sunk)) = false := by
            by_contra hcon
            rw [Bool.not_eq_false] at hcon
            exact hnz ((shipsLeft_zero_iff _).mpr hcon)
          show (g.game_over ||
            (g.ships.set idx { ship with sunk := true }).all
              (fun s => s.sunk)) = false
          rw [hgo, hallst]
          rfl
      · intro hz
        rw [(finishShot_spec _).2.2.1] at hz
        refine ⟨?_, ?_, ?_⟩
        · rw [(finishShot_spec _).2.2.2.2.2.2.1]
          have hallst := (shipsLeft_zero_iff _).mp hz
          show (g.game_over ||
            (g.ships.set idx { ship with sunk := true }).all
              (fun s => s.sunk)) = true
          rw [hallst, Bool.or_true]
        · rw [(finishShot_spec _).2.2.2.2.2.2.2.1, if_pos hz]
        · rw [(finishShot_spec _).2.2.2.2.2.2.2.2, if_pos hz]

/-- Witness for C2: the first hit on the Destroyer of the concrete game. -/
theorem C2_witness :
    ∃ g' ship, demoGame.ships[0]? = some ship ∧
      shoot demoGame 0 0 = some g' ∧
      gridGet g'.shots 0 0 = some Shot.Hit ∧
      (∀ r c : Nat, ¬(r = 0 ∧ c = 0) →
        gridGet g'.shots r c = gridGet demoGame.shots r c) ∧
      ((¬∀ p ∈ ship.positions, gridGet g'.shots p.1 p.2 = some Shot.Hit) →
        g'.ships = demoGame.ships ∧
        g'.message = "Hit at (" ++ toString (0 + 1) ++ ", " ++
          toString (0 + 1) ++ ")!" ∧
        g'.game_over = false) ∧
      ((∀ p ∈ ship.positions, gridGet g'.shots p.1 p.2 = some Shot.Hit) →
        g'.ships = demoGame.ships.set 0 { ship with sunk := true } ∧
        (shipsLeft g'.ships ≠ 0 →
          g'.message = "You sunk the " ++ ship.name ++ "!" ∧
          g'.game_over = false) ∧
        (shipsLeft g'.ships = 0 →
          g'.game_over = true ∧
          g'.message = "Congratulations! You sunk all the ships!" ∧
          g'.play_again = true)) :=
  C2_hit_resolution demoGame 0 0 0 demoGame_reachable rfl (by rfl) (by rfl)

/-- Two disjoint Boolean predicates jointly mark at most every element. -/
theorem countP_add_countP_le {l : List α} {p q : α → Bool}
    (h : ∀ x ∈ l, ¬(p x = true ∧ q x = true)) :
    l.countP p + l.countP q ≤ l.length := by
  induction l with
  | nil => simp
  | cons x t ih =>
    simp only [List.countP_cons, List.length_cons]
    have hx := h x (List.mem_cons_self x t)
    have ht := ih (fun y hy => h y (List.mem_cons_of_mem x hy))
    by_cases hp : p x = true
    · have hq : ¬q x = true := fun hq => hx ⟨hp, hq⟩
      rw [if_pos hp, if_neg hq]
      omega
    · rw [if_neg hp]
      by_cases hq : q x = true
      · rw [if_pos hq]; omega
      · rw [if_neg hq]; omega

theorem hit_miss_grid_le (cols : Nat) :
    ∀ shots : List (List Shot), (∀ row ∈ shots, row.length = cols) →
    hitCount shots + missCount shots ≤ shots.length * cols := by
  intro shots
  induction shots with
  | nil => intro _; simp [hitCount, missCount, gridCountP]
  | cons row rest ih =>
    intro hcols
    have hrow : row.countP (fun s => decide (s = Shot.Hit)) +
        row.countP (fun s => decide (s = Shot.Miss)) ≤ row.length :=
      countP_add_countP_le (fun x _ hx => by
        obtain ⟨h1, h2⟩ := hx
        rw [decide_eq_true_eq] at h1 h2
        rw [h1] at h2
        exact Shot.noConfusion h2)
    have hrest := ih (fun r hr => hcols r (List.mem_cons_of_mem row hr))
    have hrl := hcols row (List.mem_cons_self row rest)
    unfold hitCount missCount gridCountP at hrest ⊢
    simp only [List.map_cons, List.sum_cons, List.length_cons]
    rw [Nat.succ_mul]
    omega

/-- C9: in every reachable state the recorded shots fit in the grid
(`hits + misses ≤ rows * cols`) and the hit count equals the sum over the
fleet of each ship's hit positions — every `Hit` cell belongs to a ship. -/
theorem C9_stats_consistency (g : BattleshipGame) (h : Reachable g) :
    (game_stats g).hits + (game_stats g).misses ≤ g.rows * g.cols ∧
    (game_stats g).hits = (g.ships.map (shipHits g.shots)).sum := by
  have hinv := (wf_reachable h).1
  rw [game_stats_spec]
  constructor
  · show hitCount g.shots + missCount g.shots ≤ g.rows * g.cols
    have := hit_miss_grid_le g.cols g.shots hinv.shots_cols
    rw [hinv.shots_len] at this
    exact this
  · show hitCount g.shots = (g.ships.map (shipHits g.shots)).sum
    exact hinv.hits_eq

/-- Witness for C9 at the concrete game. -/
theorem C9_witness :
    (game_stats demoGame).hits + (game_stats demoGame).misses ≤
      demoGame.rows * demoGame.cols ∧
    (game_stats demoGame).hits =
      (demoGame.ships.map (shipHits demoGame.shots)).sum :=
  C9_stats_consistency demoGame demoGame_reachable

/-- C3: whenever placement (run by `new_game` on a positive grid)
terminates, the fleet is exactly Destroyer(2), Cruiser(3), Battleship(4)
in that order, all afloat; every ship occupies a contiguous horizontal or
vertical run of its own length, inside the grid; no cell is claimed by two
ships; every position is marked `Ship` with its owner's index on the
board; and exactly 2 + 3 + 4 = 9 cells of the board are occupied. -/
theorem C3_placement_sound (choices : List (Bool × Nat × Nat))
    (rows cols : Nat) (g : BattleshipGame)
    (hrows : 0 < rows) (hcols : 0 < cols)
    (h : new_game choices rows cols = some g) :
    g.ships.map (fun s => (s.name, s.length)) =
      [("Destroyer", 2), ("Cruiser", 3), ("Battleship", 4)] ∧
    g.ships.length = 3 ∧
    (∀ s ∈ g.ships, s.sunk = false) ∧
    (∀ s ∈ g.ships, s.positions.length = s.length ∧
      ∃ dir r c, s.positions = shipCells dir r c s.length) ∧
    (∀ s ∈ g.ships, ∀ p ∈ s.positions, p.1 < rows ∧ p.2 < cols) ∧
    (∀ (i j : Nat) (si sj : Ship), g.ships[i]? = some si →
      g.ships[j]? = some sj → i ≠ j →
      ∀ p ∈ si.positions, p ∉ sj.positions) ∧
    (∀ (i : Nat) (s : Ship), g.ships[i]? = some s → ∀ p ∈ s.positions,
      gridGet g.board p.1 p.2 = some (Cell.Ship i)) ∧
    occupiedCount g.board = 9 := by
  obtain ⟨⟨hinv, _⟩, hr, hc, _, _, _, _, _, hsunk⟩ := start_game_inv h
  have hlen3 : g.ships.length = 3 := by
    simpa using congrArg List.length hinv.manifest
  refine ⟨hinv.manifest, hlen3, hsunk,
    fun s hs => ⟨hinv.pos_len s hs, hinv.pos_line s hs⟩,
    ?_, ?_, hinv.pos_cell, ?_⟩
  · intro s hs p hp
    have hinb := hinv.pos_inb s hs p hp
    exact ⟨hr ▸ hinb.1, hc ▸ hinb.2⟩
  · intro i j si sj hi hj hij p hpi hpj
    have h1 := hinv.pos_cell i si hi p hpi
    have h2 := hinv.pos_cell j sj hj p hpj
    rw [h1] at h2
    exact hij (Cell.Ship.inj (Option.some.inj h2))
  · rw [hinv.occ_eq]
    have hmap := hinv.manifest
    have hpl := hinv.pos_len
    rcases hships : g.ships with _ | ⟨s0, t0⟩
    · rw [hships] at hlen3; simp at hlen3
    · rcases ht0 : t0 with _ | ⟨s1, t1⟩
      · rw [hships, ht0] at hlen3; simp at hlen3
      · rcases ht1 : t1 with _ | ⟨s2, t2⟩
        · rw [hships, ht0, ht1] at hlen3; simp at hlen3
        · rcases ht2 : t2 with _ | ⟨s3, t3⟩
          · rw [hships, ht0, ht1, ht2] at hmap
            rw [hships, ht0, ht1, ht2] at hpl
            simp only [SHIPS, List.map_cons, List.map_nil,
              List.cons.injEq, Prod.mk.injEq] at hmap
            have h0 : s0.positions.length = s0.length :=
              hpl s0 (by simp)
            have h1 : s1.positions.length = s1.length :=
              hpl s1 (by simp)
            have h2 : s2.positions.length = s2.length :=
              hpl s2 (by simp)
            simp only [List.map_cons, List.map_nil, List.sum_cons,
              List.sum_nil]
            omega
          · rw [hships, ht0, ht1, ht2] at hlen3; simp at hlen3

/-- Witness for C3 at the concrete placement on a 4×4 grid. -/
theorem C3_witness :
    demoGame.ships.map (fun s => (s.name, s.length)) =
      [("Destroyer", 2), ("Cruiser", 3), ("Battleship", 4)] ∧
    demoGame.ships.length = 3 ∧
    (∀ s ∈ demoGame.ships, s.sunk = false) ∧
    (∀ s ∈ demoGame.ships, s.positions.length = s.length ∧
      ∃ dir r c, s.positions = shipCells dir r c s.length) ∧
    (∀ s ∈ demoGame.ships, ∀ p ∈ s.positions, p.1 < 4 ∧ p.2 < 4) ∧
    (∀ (i j : Nat) (si sj : Ship), demoGame.ships[i]? = some si →
      demoGame.ships[j]? = some sj → i ≠ j →
      ∀ p ∈ si.positions, p ∉ sj.positions) ∧
    (∀ (i : Nat) (s : Ship), demoGame.ships[i]? = some s →
      ∀ p ∈ s.positions,
      gridGet demoGame.board p.1 p.2 = some (Cell.Ship i)) ∧
    occupiedCount demoGame.board = 9 :=
  C3_placement_sound demoChoices 4 4 demoGame
    (by decide) (by decide) demoGame_new
